import Mathlib

/-!
# Remitwise contracts: schedule engine, shallow embedding

A shallow embedding of the two Soroban contracts of this repository,
`bill_payments/src/lib.rs` and `insurance/src/lib.rs`, restricted to the
state they read and write (the id-keyed stores and the two id counters).

Modelling conventions:
* Soroban `Map<u32, V>` instance storage entries become association lists
  `List (Nat × V)`; `Map::get` is `mget`, `Map::set` is `mset`,
  `Map::remove` is `mremove`.  The host map iterates in key order; here
  iteration is list order, which is key order whenever the list is built
  through `mset` starting from `[]`.  No claim depends on a particular
  order across distinct schedules.
* `u32`/`u64` become `Nat`, `i128` amounts become `Int`; `Address` is an
  opaque identity modelled by `Nat` (only equality is used by the code).
* `owner.require_auth()` is the external authorization collaborator
  (spec §6) and always succeeds in this model; `env.events().publish`
  and `extend_ttl` are effect-free side channels and are dropped.
* Fallible operations return their `Result`/panic outcome in an
  `Except` value paired with the post-state; on an early return the
  post-state is the untouched input state, exactly as in the source.
-/

namespace Remitwise

/-- `Map::get` on an association list: value of the first entry with the
given key. -/
def mget {α : Type} (m : List (Nat × α)) (k : Nat) : Option α :=
  match m with
  | [] => none
  | (k', v) :: rest => if k' = k then some v else mget rest k

/-- `Map::set` on an association list: replace the first entry with the
given key, or append a new entry if the key is absent. -/
def mset {α : Type} (m : List (Nat × α)) (k : Nat) (v : α) : List (Nat × α) :=
  match m with
  | [] => [(k, v)]
  | (k', v') :: rest => if k' = k then (k, v) :: rest else (k', v') :: mset rest k v

/-- `Map::remove` on an association list: drop the first entry with the
given key. -/
def mremove {α : Type} (m : List (Nat × α)) (k : Nat) : List (Nat × α) :=
  match m with
  | [] => []
  | (k', v') :: rest => if k' = k then rest else (k', v') :: mremove rest k

/-- The key set of an association list. -/
def mkeys {α : Type} (m : List (Nat × α)) : List Nat := m.map Prod.fst


/-!
## The catch-up loop

The literal translation of the loop shared by
`bill_payments/src/lib.rs:597-605` and `insurance/src/lib.rs:510-518`:

```rust
let mut missed = 0u32;
let mut next = schedule.next_due + schedule.interval;
while next <= current_time {
    missed += 1;
    next += schedule.interval;
}
```

`catchUpLoop interval hpos now next` returns `(missed, final next)` for
the loop entered with counter `0` and current value `next`.  The
positivity hypothesis is exactly the guard under which the code enters
this loop (`schedule.recurring && schedule.interval > 0`).
-/

def catchUpLoop (interval : Nat) (hpos : 0 < interval) (now next : Nat) :
    Nat × Nat :=
  if next ≤ now then
    let r := catchUpLoop interval hpos now (next + interval)
    (r.1 + 1, r.2)
  else
    (0, next)
termination_by now + 1 - next
decreasing_by omega


/-!
## Bill variant (`bill_payments/src/lib.rs`)
-/

/-- `Bill` from `bill_payments/src/lib.rs:17-29`. -/
structure Bill where
  id : Nat
  owner : Nat
  name : String
  amount : Int
  due_date : Nat
  recurring : Bool
  frequency_days : Nat
  paid : Bool
  created_at : Nat
  paid_at : Option Nat
  schedule_id : Option Nat
deriving DecidableEq, Repr

/-- `Schedule` from the bill contract's `schedule` module
(`bill_payments/src/schedule.rs`; the file itself is not under `src/`,
so the fields are reconstructed from every use of the struct in
`bill_payments/src/lib.rs` — construction at lines 410-420 and field
accesses in `modify_schedule`, `cancel_schedule` and
`execute_due_schedules`). -/
structure Schedule where
  id : Nat
  owner : Nat
  next_due : Nat
  interval : Nat
  recurring : Bool
  active : Bool
  created_at : Nat
  last_executed : Option Nat
  missed_count : Nat
deriving DecidableEq, Repr

/-- `Error` from `bill_payments/src/lib.rs:34-40`. -/
inductive Error where
  | BillNotFound
  | BillAlreadyPaid
  | InvalidAmount
  | InvalidFrequency
  | Unauthorized
deriving DecidableEq, Repr

/-- The instance storage of the bill contract: the `BILLS` and
`SCHEDULES` maps and the `NEXT_ID` and `NEXT_SCH` counters (absent
storage reads default to the empty map / `0`, as in the source's
`unwrap_or_else` / `unwrap_or(0)`). -/
structure BState where
  bills : List (Nat × Bill)
  schedules : List (Nat × Schedule)
  next_id : Nat
  next_sch : Nat
deriving DecidableEq, Repr

/-- `create_bill` (`bill_payments/src/lib.rs:71-138`). -/
def create_bill (σ : BState) (owner : Nat) (name : String) (amount : Int)
    (due_date : Nat) (recurring : Bool) (frequency_days : Nat) (now : Nat) :
    Except Error Nat × BState :=
  if amount ≤ 0 then
    (.error .InvalidAmount, σ)
  else if recurring && frequency_days == 0 then
    (.error .InvalidFrequency, σ)
  else
    let next_id := σ.next_id + 1
    let bill : Bill :=
      { id := next_id, owner := owner, name := name, amount := amount,
        due_date := due_date, recurring := recurring,
        frequency_days := frequency_days, paid := false,
        created_at := now, paid_at := none, schedule_id := none }
    (.ok next_id,
      { σ with bills := mset σ.bills next_id bill, next_id := next_id })

/-- `pay_bill` (`bill_payments/src/lib.rs:153-219`). -/
def pay_bill (σ : BState) (caller : Nat) (bill_id : Nat) (now : Nat) :
    Except Error Unit × BState :=
  match mget σ.bills bill_id with
  | none => (.error .BillNotFound, σ)
  | some bill =>
    if bill.owner ≠ caller then
      (.error .Unauthorized, σ)
    else if bill.paid then
      (.error .BillAlreadyPaid, σ)
    else
      let bill' := { bill with paid := true, paid_at := some now }
      if bill.recurring then
        let next_due_date := bill.due_date + bill.frequency_days * 86400
        let next_id := σ.next_id + 1
        let next_bill : Bill :=
          { id := next_id, owner := bill.owner, name := bill.name,
            amount := bill.amount, due_date := next_due_date,
            recurring := true, frequency_days := bill.frequency_days,
            paid := false, created_at := now, paid_at := none,
            schedule_id := bill.schedule_id }
        (.ok (),
          { σ with
            bills := mset (mset σ.bills next_id next_bill) bill_id bill',
            next_id := next_id })
      else
        (.ok (), { σ with bills := mset σ.bills bill_id bill' })

/-- `cancel_bill` (`bill_payments/src/lib.rs:315-332`).  Note: the
source takes no caller argument and performs no ownership check. -/
def cancel_bill (σ : BState) (bill_id : Nat) : Except Error Unit × BState :=
  match mget σ.bills bill_id with
  | none => (.error .BillNotFound, σ)
  | some _ => (.ok (), { σ with bills := mremove σ.bills bill_id })

/-- `create_schedule` (`bill_payments/src/lib.rs:369-444`). -/
def create_schedule (σ : BState) (owner : Nat) (bill_id : Nat)
    (next_due : Nat) (interval : Nat) (now : Nat) :
    Except Error Nat × BState :=
  match mget σ.bills bill_id with
  | none => (.error .BillNotFound, σ)
  | some bill =>
    if bill.owner ≠ owner then
      (.error .Unauthorized, σ)
    else if next_due ≤ now then
      (.error .InvalidAmount, σ)
    else
      let next_schedule_id := σ.next_sch + 1
      let schedule : Schedule :=
        { id := next_schedule_id, owner := owner, next_due := next_due,
          interval := interval, recurring := decide (0 < interval),
          active := true, created_at := now, last_executed := none,
          missed_count := 0 }
      let bill' := { bill with schedule_id := some next_schedule_id }
      (.ok next_schedule_id,
        { σ with
          schedules := mset σ.schedules next_schedule_id schedule,
          bills := mset σ.bills bill_id bill',
          next_sch := next_schedule_id })

/-- `modify_schedule` (`bill_payments/src/lib.rs:447-490`). -/
def modify_schedule (σ : BState) (caller : Nat) (schedule_id : Nat)
    (next_due : Nat) (interval : Nat) (now : Nat) :
    Except Error Unit × BState :=
  match mget σ.schedules schedule_id with
  | none => (.error .BillNotFound, σ)
  | some schedule =>
    if schedule.owner ≠ caller then
      (.error .Unauthorized, σ)
    else if next_due ≤ now then
      (.error .InvalidAmount, σ)
    else
      let schedule' :=
        { schedule with
          next_due := next_due,
          interval := interval,
          recurring := decide (0 < interval) }
      (.ok (),
        { σ with schedules := mset σ.schedules schedule_id schedule' })

/-- `cancel_schedule` (`bill_payments/src/lib.rs:493-523`). -/
def cancel_schedule (σ : BState) (caller : Nat) (schedule_id : Nat) :
    Except Error Unit × BState :=
  match mget σ.schedules schedule_id with
  | none => (.error .BillNotFound, σ)
  | some schedule =>
    if schedule.owner ≠ caller then
      (.error .Unauthorized, σ)
    else
      (.ok (),
        { σ with
          schedules := mset σ.schedules schedule_id
            { schedule with active := false } })

/-- `find_bill_by_schedule` (`bill_payments/src/lib.rs:664-671`). -/
def find_bill_by_schedule (bills : List (Nat × Bill)) (schedule_id : Nat) :
    Option Nat :=
  match bills with
  | [] => none
  | (bill_id, bill) :: rest =>
    if bill.schedule_id = some schedule_id then some bill_id
    else find_bill_by_schedule rest schedule_id

/-- The obligation-fulfilment part of one sweep iteration
(`bill_payments/src/lib.rs:549-593`): resolve the linked bill, and if it
exists and is unpaid, mark it paid and (when recurring) append the
successor bill, advancing `NEXT_ID`.  Returns the updated bills map and
`NEXT_ID` counter. -/
def fulfillLinkedBill (bills : List (Nat × Bill)) (next_id : Nat)
    (schedule_id : Nat) (now : Nat) : List (Nat × Bill) × Nat :=
  match find_bill_by_schedule bills schedule_id with
  | none => (bills, next_id)
  | some bid =>
    match mget bills bid with
    | none => (bills, next_id)
    | some bill =>
      if bill.paid then (bills, next_id)
      else
        let bill' := { bill with paid := true, paid_at := some now }
        if bill.recurring then
          let nid := next_id + 1
          let next_bill : Bill :=
            { id := nid, owner := bill.owner, name := bill.name,
              amount := bill.amount,
              due_date := bill.due_date + bill.frequency_days * 86400,
              recurring := true, frequency_days := bill.frequency_days,
              paid := false, created_at := now, paid_at := none,
              schedule_id := bill.schedule_id }
          (mset (mset bills nid next_bill) bid bill', nid)
        else
          (mset bills bid bill', next_id)

/-- The schedule-advancement part of one sweep iteration
(`bill_payments/src/lib.rs:595-615`): set `last_executed`, then either
run the catch-up loop (recurring with positive interval) or deactivate
(one-time). -/
def advanceSchedule (s : Schedule) (now : Nat) : Schedule :=
  let s₁ := { s with last_executed := some now }
  if h : s₁.recurring = true ∧ 0 < s₁.interval then
    let r := catchUpLoop s₁.interval h.2 now (s₁.next_due + s₁.interval)
    { s₁ with missed_count := s₁.missed_count + r.1, next_due := r.2 }
  else
    { s₁ with active := false }

/-- The accumulator threaded through the sweep's `for` loop: the
mutable `schedules` and `bills` maps, the `NEXT_ID` counter, and the
`executed` result vector. -/
structure SweepAcc where
  schedules : List (Nat × Schedule)
  bills : List (Nat × Bill)
  next_id : Nat
  executed : List Nat
deriving DecidableEq, Repr

/-- One iteration of the sweep loop of `execute_due_schedules`
(`bill_payments/src/lib.rs:544-624`), processing the snapshot entry
`(schedule_id, schedule)`. -/
def stepSchedule (now : Nat) (acc : SweepAcc) (entry : Nat × Schedule) :
    SweepAcc :=
  if entry.2.active = false ∨ now < entry.2.next_due then
    acc
  else
    let r := fulfillLinkedBill acc.bills acc.next_id entry.1 now
    { schedules := mset acc.schedules entry.1 (advanceSchedule entry.2 now),
      bills := r.1,
      next_id := r.2,
      executed := acc.executed ++ [entry.1] }

/-- `execute_due_schedules` (`bill_payments/src/lib.rs:526-634`): fold
the loop body over the snapshot of the schedules map taken at entry,
then write both maps back. -/
def execute_due_schedules (σ : BState) (now : Nat) : List Nat × BState :=
  let acc := σ.schedules.foldl (stepSchedule now)
    { schedules := σ.schedules, bills := σ.bills, next_id := σ.next_id,
      executed := [] }
  (acc.executed,
    { σ with schedules := acc.schedules, bills := acc.bills,
             next_id := acc.next_id })

/-- The mutating entry points of the bill contract, with the ledger
timestamp of the invocation attached where the source reads it. -/
inductive BillOp where
  | createBill (owner : Nat) (name : String) (amount : Int) (due_date : Nat)
      (recurring : Bool) (frequency_days : Nat)
  | payBill (caller : Nat) (bill_id : Nat)
  | cancelBill (bill_id : Nat)
  | createSchedule (owner : Nat) (bill_id : Nat) (next_due : Nat)
      (interval : Nat)
  | modifySchedule (caller : Nat) (schedule_id : Nat) (next_due : Nat)
      (interval : Nat)
  | cancelSchedule (caller : Nat) (schedule_id : Nat)
  | sweep
deriving DecidableEq, Repr

/-- The reported error of an invocation, if any. -/
def errOf {α : Type} (r : Except Error α) : Option Error :=
  match r with
  | .error e => some e
  | .ok _ => none

/-- Dispatch one bill-contract invocation at ledger time `now`. -/
def runBillOp (op : BillOp) (now : Nat) (σ : BState) :
    Option Error × BState :=
  match op with
  | .createBill o n a d r f =>
    let p := create_bill σ o n a d r f now
    (errOf p.1, p.2)
  | .payBill c b =>
    let p := pay_bill σ c b now
    (errOf p.1, p.2)
  | .cancelBill b =>
    let p := cancel_bill σ b
    (errOf p.1, p.2)
  | .createSchedule o b nd i =>
    let p := create_schedule σ o b nd i now
    (errOf p.1, p.2)
  | .modifySchedule c s nd i =>
    let p := modify_schedule σ c s nd i now
    (errOf p.1, p.2)
  | .cancelSchedule c s =>
    let p := cancel_schedule σ c s
    (errOf p.1, p.2)
  | .sweep =>
    (none, (execute_due_schedules σ now).2)

/-- Run a sequence of invocations, each with its own ledger timestamp. -/
def runBillOps (ops : List (BillOp × Nat)) (σ : BState) : BState :=
  ops.foldl (fun σ p => (runBillOp p.1 p.2 σ).2) σ

/-!
## Insurance variant (`insurance/src/lib.rs`)

This contract signals failure by `panic!`/`expect` (the fatal/abort
style of spec §7).  A panic is modelled as `Except.error msg` carrying
the source's panic message; since the ledger transaction rolls back an
aborted invocation in full, the state paired with an error is the input
state.
-/

/-- `InsurancePolicy` from `insurance/src/lib.rs:13-23`. -/
structure InsurancePolicy where
  id : Nat
  owner : Nat
  name : String
  coverage_type : String
  monthly_premium : Int
  coverage_amount : Int
  active : Bool
  next_payment_date : Nat
  schedule_id : Option Nat
deriving DecidableEq, Repr

/-- `PremiumSchedule` from `insurance/src/lib.rs:28-39`. -/
structure PremiumSchedule where
  id : Nat
  owner : Nat
  policy_id : Nat
  next_due : Nat
  interval : Nat
  recurring : Bool
  active : Bool
  created_at : Nat
  last_executed : Option Nat
  missed_count : Nat
deriving DecidableEq, Repr

/-- The instance storage of the insurance contract: the `POLICIES` and
`PREM_SCH` maps and the `NEXT_ID` and `NEXT_PSCH` counters. -/
structure IState where
  policies : List (Nat × InsurancePolicy)
  schedules : List (Nat × PremiumSchedule)
  next_id : Nat
  next_psch : Nat
deriving DecidableEq, Repr

/-- `create_policy` (`insurance/src/lib.rs:76-142`). -/
def create_policy (σ : IState) (owner : Nat) (name : String)
    (coverage_type : String) (monthly_premium : Int)
    (coverage_amount : Int) (now : Nat) : Except String Nat × IState :=
  if monthly_premium ≤ 0 then
    (.error "Monthly premium must be positive", σ)
  else if coverage_amount ≤ 0 then
    (.error "Coverage amount must be positive", σ)
  else
    let next_id := σ.next_id + 1
    let policy : InsurancePolicy :=
      { id := next_id, owner := owner, name := name,
        coverage_type := coverage_type,
        monthly_premium := monthly_premium,
        coverage_amount := coverage_amount, active := true,
        next_payment_date := now + 30 * 86400, schedule_id := none }
    (.ok next_id,
      { σ with policies := mset σ.policies next_id policy,
               next_id := next_id })

/-- `pay_premium` (`insurance/src/lib.rs:157-196`). -/
def pay_premium (σ : IState) (caller : Nat) (policy_id : Nat) (now : Nat) :
    Except String Bool × IState :=
  match mget σ.policies policy_id with
  | none => (.error "Policy not found", σ)
  | some policy =>
    if policy.owner ≠ caller then
      (.error "Only the policy owner can pay premiums", σ)
    else if policy.active = false then
      (.error "Policy is not active", σ)
    else
      (.ok true,
        { σ with
          policies := mset σ.policies policy_id
            { policy with next_payment_date := now + 30 * 86400 } })

/-- `deactivate_policy` (`insurance/src/lib.rs:273-306`). -/
def deactivate_policy (σ : IState) (caller : Nat) (policy_id : Nat) :
    Except String Bool × IState :=
  match mget σ.policies policy_id with
  | none => (.error "Policy not found", σ)
  | some policy =>
    if policy.owner ≠ caller then
      (.error "Only the policy owner can deactivate this policy", σ)
    else
      (.ok true,
        { σ with
          policies := mset σ.policies policy_id
            { policy with active := false } })

/-- `create_premium_schedule` (`insurance/src/lib.rs:316-391`). -/
def create_premium_schedule (σ : IState) (owner : Nat) (policy_id : Nat)
    (next_due : Nat) (interval : Nat) (now : Nat) :
    Except String Nat × IState :=
  match mget σ.policies policy_id with
  | none => (.error "Policy not found", σ)
  | some policy =>
    if policy.owner ≠ owner then
      (.error "Only the policy owner can create schedules", σ)
    else if next_due ≤ now then
      (.error "Next due date must be in the future", σ)
    else
      let next_schedule_id := σ.next_psch + 1
      let schedule : PremiumSchedule :=
        { id := next_schedule_id, owner := owner, policy_id := policy_id,
          next_due := next_due, interval := interval,
          recurring := decide (0 < interval), active := true,
          created_at := now, last_executed := none, missed_count := 0 }
      let policy' := { policy with schedule_id := some next_schedule_id }
      (.ok next_schedule_id,
        { σ with
          schedules := mset σ.schedules next_schedule_id schedule,
          policies := mset σ.policies policy_id policy',
          next_psch := next_schedule_id })

/-- `modify_premium_schedule` (`insurance/src/lib.rs:394-437`).  Note:
the source checks `next_due <= now` before looking up the schedule. -/
def modify_premium_schedule (σ : IState) (caller : Nat) (schedule_id : Nat)
    (next_due : Nat) (interval : Nat) (now : Nat) :
    Except String Bool × IState :=
  if next_due ≤ now then
    (.error "Next due date must be in the future", σ)
  else
    match mget σ.schedules schedule_id with
    | none => (.error "Schedule not found", σ)
    | some schedule =>
      if schedule.owner ≠ caller then
        (.error "Only the schedule owner can modify it", σ)
      else
        let schedule' :=
          { schedule with
            next_due := next_due,
            interval := interval,
            recurring := decide (0 < interval) }
        (.ok true,
          { σ with schedules := mset σ.schedules schedule_id schedule' })

/-- `cancel_premium_schedule` (`insurance/src/lib.rs:440-470`). -/
def cancel_premium_schedule (σ : IState) (caller : Nat)
    (schedule_id : Nat) : Except String Bool × IState :=
  match mget σ.schedules schedule_id with
  | none => (.error "Schedule not found", σ)
  | some schedule =>
    if schedule.owner ≠ caller then
      (.error "Only the schedule owner can cancel it", σ)
    else
      (.ok true,
        { σ with
          schedules := mset σ.schedules schedule_id
            { schedule with active := false } })

/-- The policy-side effect of one sweep iteration
(`insurance/src/lib.rs:496-506`): if the linked policy exists and is
active, push its `next_payment_date` 30 days past `now`.  No successor
obligation is created and no id is allocated. -/
def fulfillLinkedPolicy (policies : List (Nat × InsurancePolicy))
    (policy_id : Nat) (now : Nat) : List (Nat × InsurancePolicy) :=
  match mget policies policy_id with
  | none => policies
  | some policy =>
    if policy.active then
      mset policies policy_id
        { policy with next_payment_date := now + 30 * 86400 }
    else
      policies

/-- The schedule-advancement part of one sweep iteration
(`insurance/src/lib.rs:508-528`); textually identical to the bill
variant's advancement, including the shared catch-up loop. -/
def advancePremiumSchedule (s : PremiumSchedule) (now : Nat) :
    PremiumSchedule :=
  let s₁ := { s with last_executed := some now }
  if h : s₁.recurring = true ∧ 0 < s₁.interval then
    let r := catchUpLoop s₁.interval h.2 now (s₁.next_due + s₁.interval)
    { s₁ with missed_count := s₁.missed_count + r.1, next_due := r.2 }
  else
    { s₁ with active := false }

/-- The accumulator of the insurance sweep loop (no id counter: this
sweep never allocates ids). -/
structure ISweepAcc where
  schedules : List (Nat × PremiumSchedule)
  policies : List (Nat × InsurancePolicy)
  executed : List Nat
deriving DecidableEq, Repr

/-- One iteration of the sweep loop of `execute_due_premium_schedules`
(`insurance/src/lib.rs:491-537`). -/
def stepPremiumSchedule (now : Nat) (acc : ISweepAcc)
    (entry : Nat × PremiumSchedule) : ISweepAcc :=
  if entry.2.active = false ∨ now < entry.2.next_due then
    acc
  else
    { schedules :=
        mset acc.schedules entry.1 (advancePremiumSchedule entry.2 now),
      policies := fulfillLinkedPolicy acc.policies entry.2.policy_id now,
      executed := acc.executed ++ [entry.1] }

/-- `execute_due_premium_schedules` (`insurance/src/lib.rs:473-547`). -/
def execute_due_premium_schedules (σ : IState) (now : Nat) :
    List Nat × IState :=
  let acc := σ.schedules.foldl (stepPremiumSchedule now)
    { schedules := σ.schedules, policies := σ.policies, executed := [] }
  (acc.executed,
    { σ with schedules := acc.schedules, policies := acc.policies })

/-- The mutating entry points of the insurance contract. -/
inductive InsOp where
  | createPolicy (owner : Nat) (name : String) (coverage_type : String)
      (monthly_premium : Int) (coverage_amount : Int)
  | payPremium (caller : Nat) (policy_id : Nat)
  | deactivatePolicy (caller : Nat) (policy_id : Nat)
  | createPremiumSchedule (owner : Nat) (policy_id : Nat) (next_due : Nat)
      (interval : Nat)
  | modifyPremiumSchedule (caller : Nat) (schedule_id : Nat)
      (next_due : Nat) (interval : Nat)
  | cancelPremiumSchedule (caller : Nat) (schedule_id : Nat)
  | sweep
deriving DecidableEq, Repr

/-- The panic message of an invocation, if any. -/
def panicOf {α : Type} (r : Except String α) : Option String :=
  match r with
  | .error e => some e
  | .ok _ => none

/-- Dispatch one insurance-contract invocation at ledger time `now`. -/
def runInsOp (op : InsOp) (now : Nat) (σ : IState) :
    Option String × IState :=
  match op with
  | .createPolicy o n ct mp ca =>
    let p := create_policy σ o n ct mp ca now
    (panicOf p.1, p.2)
  | .payPremium c pid =>
    let p := pay_premium σ c pid now
    (panicOf p.1, p.2)
  | .deactivatePolicy c pid =>
    let p := deactivate_policy σ c pid
    (panicOf p.1, p.2)
  | .createPremiumSchedule o pid nd i =>
    let p := create_premium_schedule σ o pid nd i now
    (panicOf p.1, p.2)
  | .modifyPremiumSchedule c s nd i =>
    let p := modify_premium_schedule σ c s nd i now
    (panicOf p.1, p.2)
  | .cancelPremiumSchedule c s =>
    let p := cancel_premium_schedule σ c s
    (panicOf p.1, p.2)
  | .sweep =>
    (none, (execute_due_premium_schedules σ now).2)

/-- Run a sequence of insurance invocations. -/
def runInsOps (ops : List (InsOp × Nat)) (σ : IState) : IState :=
  ops.foldl (fun σ p => (runInsOp p.1 p.2 σ).2) σ

/-!
## Derived predicates used by the statements
-/

/-- All keys of a store are bounded by the id counter `n`. -/
def storeBounded {α : Type} (m : List (Nat × α)) (n : Nat) : Prop :=
  ∀ k ∈ mkeys m, k ≤ n

instance {α : Type} (m : List (Nat × α)) (n : Nat) :
    Decidable (storeBounded m n) :=
  decidable_of_iff (∀ k ∈ mkeys m, k ≤ n) Iff.rfl

/-- Well-formedness of the bill contract's schedule store: distinct
keys, all bounded by the `NEXT_SCH` counter.  This holds for every
state reachable through the contract's entry points. -/
def schedInvB (σ : BState) : Prop :=
  (mkeys σ.schedules).Nodup ∧ storeBounded σ.schedules σ.next_sch

/-- Well-formedness of the bill store: distinct keys, all bounded by
the `NEXT_ID` counter. -/
def billsInvB (σ : BState) : Prop :=
  (mkeys σ.bills).Nodup ∧ storeBounded σ.bills σ.next_id

/-- Well-formedness of the insurance contract's schedule store. -/
def schedInvI (σ : IState) : Prop :=
  (mkeys σ.schedules).Nodup ∧ storeBounded σ.schedules σ.next_psch

/-- The sub-list of schedule-store entries the bill sweep selects: the
`continue` test of the loop, negated. -/
def dueEntriesB (now : Nat) (l : List (Nat × Schedule)) :
    List (Nat × Schedule) :=
  l.filter (fun p => p.2.active && decide (p.2.next_due ≤ now))

/-- The sub-list of schedule-store entries the insurance sweep
selects. -/
def dueEntriesI (now : Nat) (l : List (Nat × PremiumSchedule)) :
    List (Nat × PremiumSchedule) :=
  l.filter (fun p => p.2.active && decide (p.2.next_due ≤ now))

/-- Evolution order on bill schedule stores: every stored schedule is
still stored, with a `missed_count` at least as large, and inactivity
is preserved. -/
def SchedEvol (m m' : List (Nat × Schedule)) : Prop :=
  ∀ k s, mget m k = some s →
    ∃ s', mget m' k = some s'
      ∧ s.missed_count ≤ s'.missed_count
      ∧ (s.active = false → s'.active = false)

/-- Evolution order on premium schedule stores. -/
def PremEvol (m m' : List (Nat × PremiumSchedule)) : Prop :=
  ∀ k s, mget m k = some s →
    ∃ s', mget m' k = some s'
      ∧ s.missed_count ≤ s'.missed_count
      ∧ (s.active = false → s'.active = false)

/-- Evolution order on bill stores: a stored paid bill is still stored
and still paid. -/
def PaidEvol (m m' : List (Nat × Bill)) : Prop :=
  ∀ k b, mget m k = some b → b.paid = true →
    ∃ b', mget m' k = some b' ∧ b'.paid = true

/-!
## Library of facts about the embedding
-/

theorem mget_mset_self {α : Type} (m : List (Nat × α)) (k : Nat) (v : α) :
    mget (mset m k v) k = some v := by
  induction m with
  | nil => simp [mget, mset]
  | cons p rest ih =>
    obtain ⟨k', v'⟩ := p
    by_cases h : k' = k <;> simp [mget, mset, h, ih]

theorem mget_mset_ne {α : Type} (m : List (Nat × α)) (k k' : Nat) (v : α)
    (h : k ≠ k') : mget (mset m k v) k' = mget m k' := by
  induction m with
  | nil => simp [mget, mset, h]
  | cons p rest ih =>
    obtain ⟨k₀, v₀⟩ := p
    by_cases h₀ : k₀ = k
    · subst h₀; simp [mget, mset, h]
    · simp only [mset, if_neg h₀]
      by_cases h₁ : k₀ = k' <;> simp [mget, h₁, ih]

theorem mget_some_of_mem {α : Type} (m : List (Nat × α)) (p : Nat × α)
    (hn : (mkeys m).Nodup) (hm : p ∈ m) : mget m p.1 = some p.2 := by
  induction m with
  | nil => simp at hm
  | cons q rest ih =>
    obtain ⟨k₀, v₀⟩ := q
    simp only [mkeys, List.map_cons, List.nodup_cons] at hn
    rcases List.mem_cons.mp hm with h | h
    · subst h; simp [mget]
    · have hk : k₀ ≠ p.1 := by
        intro he
        exact hn.1 (he ▸ (List.mem_map.mpr ⟨p, h, rfl⟩))
      simp only [mget, if_neg hk]
      exact ih hn.2 h

theorem mkeys_mset_of_mem {α : Type} (m : List (Nat × α)) (k : Nat) (v : α)
    (h : k ∈ mkeys m) : mkeys (mset m k v) = mkeys m := by
  induction m with
  | nil => simp [mkeys] at h
  | cons p rest ih =>
    obtain ⟨k₀, v₀⟩ := p
    by_cases h₀ : k₀ = k
    · simp [mkeys, mset, h₀]
    · have h₁ : k ∈ mkeys rest := by
        simp only [mkeys, List.map_cons, List.mem_cons] at h
        rcases h with h₁ | h₁
        · exact absurd h₁.symm h₀
        · simpa [mkeys] using h₁
      have h₂ := ih h₁
      simp only [mkeys] at h₂ ⊢
      simp [mset, h₀, h₂]

theorem mkeys_mset_of_not_mem {α : Type} (m : List (Nat × α)) (k : Nat) (v : α)
    (h : k ∉ mkeys m) : mkeys (mset m k v) = mkeys m ++ [k] := by
  induction m with
  | nil => simp [mkeys, mset]
  | cons p rest ih =>
    obtain ⟨k₀, v₀⟩ := p
    simp only [mkeys, List.map_cons, List.mem_cons] at h
    push_neg at h
    have hne : ¬ k₀ = k := fun he => h.1 he.symm
    have h₂ := ih (by simpa [mkeys] using h.2)
    simp only [mkeys] at h₂ ⊢
    simp [mset, hne, h₂]

theorem mget_eq_none_of_not_mem {α : Type} (m : List (Nat × α)) (k : Nat)
    (h : k ∉ mkeys m) : mget m k = none := by
  induction m with
  | nil => simp [mget]
  | cons p rest ih =>
    obtain ⟨k₀, v₀⟩ := p
    simp only [mkeys, List.map_cons, List.mem_cons] at h
    push_neg at h
    have hne : ¬ k₀ = k := fun he => h.1 he.symm
    simp [mget, hne, ih (by simpa [mkeys] using h.2)]

theorem mem_mkeys_of_mget {α : Type} (m : List (Nat × α)) (k : Nat) (v : α)
    (h : mget m k = some v) : k ∈ mkeys m := by
  induction m with
  | nil => simp [mget] at h
  | cons p rest ih =>
    obtain ⟨k₀, v₀⟩ := p
    by_cases h₀ : k₀ = k
    · simp [mkeys, h₀]
    · simp only [mget, if_neg h₀] at h
      simp only [mkeys, List.map_cons, List.mem_cons]
      right
      simpa [mkeys] using ih h

theorem length_mset_of_mem {α : Type} (m : List (Nat × α)) (k : Nat) (v : α)
    (h : k ∈ mkeys m) : (mset m k v).length = m.length := by
  induction m with
  | nil => simp [mkeys] at h
  | cons p rest ih =>
    obtain ⟨k₀, v₀⟩ := p
    by_cases h₀ : k₀ = k
    · simp [mset, h₀]
    · simp only [mkeys, List.map_cons, List.mem_cons] at h
      rcases h with h₁ | h₁
      · exact absurd h₁.symm h₀
      · simp [mset, h₀, ih h₁]

theorem length_mset_of_not_mem {α : Type} (m : List (Nat × α)) (k : Nat) (v : α)
    (h : k ∉ mkeys m) : (mset m k v).length = m.length + 1 := by
  induction m with
  | nil => simp [mset]
  | cons p rest ih =>
    obtain ⟨k₀, v₀⟩ := p
    simp only [mkeys, List.map_cons, List.mem_cons] at h
    push_neg at h
    have hne : ¬ k₀ = k := fun he => h.1 he.symm
    simp [mset, hne, ih (by simpa [mkeys] using h.2)]

theorem mem_of_mget {α : Type} (m : List (Nat × α)) (k : Nat) (v : α)
    (h : mget m k = some v) : (k, v) ∈ m := by
  induction m with
  | nil => simp [mget] at h
  | cons p rest ih =>
    obtain ⟨k₀, v₀⟩ := p
    by_cases h₀ : k₀ = k
    · subst h₀
      simp only [mget, if_true, eq_self_iff_true, ite_true, Option.some.injEq] at h
      subst h
      exact List.mem_cons_self _ _
    · simp only [mget, if_neg h₀] at h
      exact List.mem_cons_of_mem _ (ih h)

theorem mem_mset {α : Type} (m : List (Nat × α)) (k : Nat) (v : α)
    (q : Nat × α) (h : q ∈ mset m k v) : q = (k, v) ∨ q ∈ m := by
  induction m with
  | nil => simpa [mset] using h
  | cons p rest ih =>
    obtain ⟨k₀, v₀⟩ := p
    by_cases h₀ : k₀ = k
    · simp only [mset, if_pos h₀] at h
      rcases List.mem_cons.mp h with h₁ | h₁
      · exact Or.inl h₁
      · exact Or.inr (List.mem_cons_of_mem _ h₁)
    · simp only [mset, if_neg h₀] at h
      rcases List.mem_cons.mp h with h₁ | h₁
      · exact Or.inr (h₁ ▸ List.mem_cons_self _ _)
      · rcases ih h₁ with h₂ | h₂
        · exact Or.inl h₂
        · exact Or.inr (List.mem_cons_of_mem _ h₂)

theorem mget_mremove_ne {α : Type} (m : List (Nat × α)) (k k' : Nat)
    (h : k ≠ k') : mget (mremove m k) k' = mget m k' := by
  induction m with
  | nil => simp [mremove]
  | cons p rest ih =>
    obtain ⟨k₀, v₀⟩ := p
    by_cases h₀ : k₀ = k
    · subst h₀
      simp [mremove, mget, h]
    · simp only [mremove, if_neg h₀]
      by_cases h₁ : k₀ = k' <;> simp [mget, h₁, ih]

theorem mkeys_mremove_sublist {α : Type} (m : List (Nat × α)) (k : Nat) :
    (mkeys (mremove m k)).Sublist (mkeys m) := by
  induction m with
  | nil => simp [mremove, mkeys]
  | cons p rest ih =>
    obtain ⟨k₀, v₀⟩ := p
    by_cases h₀ : k₀ = k
    · simp only [mremove, if_pos h₀, mkeys, List.map_cons]
      exact List.sublist_cons_self _ _
    · simp only [mremove, if_neg h₀, mkeys, List.map_cons]
      exact List.Sublist.cons₂ _ ih

theorem mget_mremove_self {α : Type} (m : List (Nat × α)) (k : Nat)
    (hn : (mkeys m).Nodup) : mget (mremove m k) k = none := by
  induction m with
  | nil => simp [mremove, mget]
  | cons p rest ih =>
    obtain ⟨k₀, v₀⟩ := p
    simp only [mkeys, List.map_cons, List.nodup_cons] at hn
    by_cases h₀ : k₀ = k
    · subst h₀
      simp only [mremove, if_pos rfl]
      exact mget_eq_none_of_not_mem rest k₀ (by simpa [mkeys] using hn.1)
    · simp only [mremove, if_neg h₀, mget, if_neg h₀]
      exact ih hn.2

/-- Joint specification of the catch-up loop: the final `next` is the
start value plus `missed` intervals, it strictly exceeds `now`, and every
earlier multiple was still `≤ now`. -/
theorem catchUpLoop_spec (interval : Nat) (hpos : 0 < interval) (now : Nat) :
    ∀ next,
      (catchUpLoop interval hpos now next).2
          = next + (catchUpLoop interval hpos now next).1 * interval
        ∧ now < (catchUpLoop interval hpos now next).2
        ∧ ∀ j < (catchUpLoop interval hpos now next).1,
            next + j * interval ≤ now := by
  have main : ∀ fuel next, now + 1 - next ≤ fuel →
      (catchUpLoop interval hpos now next).2
          = next + (catchUpLoop interval hpos now next).1 * interval
        ∧ now < (catchUpLoop interval hpos now next).2
        ∧ ∀ j < (catchUpLoop interval hpos now next).1,
            next + j * interval ≤ now := by
    intro fuel
    induction fuel with
    | zero =>
      intro next hle
      have hgt : ¬ next ≤ now := by omega
      rw [catchUpLoop, if_neg hgt]
      refine ⟨by simp, by omega, ?_⟩
      intro j hj
      simp at hj
    | succ n ih =>
      intro next hle
      by_cases hc : next ≤ now
      · have hrec := ih (next + interval) (by omega)
        rw [catchUpLoop, if_pos hc]
        obtain ⟨h1, h2, h3⟩ := hrec
        refine ⟨?_, h2, ?_⟩
        · simp only []
          rw [h1]
          ring
        · intro j hj
          simp only [] at hj
          match j with
          | 0 => simpa using hc
          | j' + 1 =>
            have := h3 j' (by omega)
            calc next + (j' + 1) * interval
                = next + interval + j' * interval := by ring
              _ ≤ now := this
      · rw [catchUpLoop, if_neg hc]
        refine ⟨by simp, by omega, ?_⟩
        intro j hj
        simp at hj
  intro next
  exact main (now + 1 - next) next le_rfl

/-!
## Schedule advancement
-/

/-- Unconditional facts about the advancement step of the bill sweep:
`last_executed` is stamped, `missed_count` never shrinks, inactivity is
preserved, and afterwards the schedule is inactive or strictly in the
future. -/
theorem advanceSchedule_spec (s : Schedule) (now : Nat) :
    (advanceSchedule s now).last_executed = some now
      ∧ s.missed_count ≤ (advanceSchedule s now).missed_count
      ∧ (s.active = false → (advanceSchedule s now).active = false)
      ∧ ((advanceSchedule s now).active = false
          ∨ now < (advanceSchedule s now).next_due) := by
  unfold advanceSchedule
  by_cases h : s.recurring = true ∧ 0 < s.interval
  · rw [dif_pos h]
    refine ⟨rfl, by simp, fun ha => ha, Or.inr ?_⟩
    exact (catchUpLoop_spec s.interval h.2 now (s.next_due + s.interval)).2.1
  · rw [dif_neg h]
    exact ⟨rfl, le_rfl, fun _ => rfl, Or.inl rfl⟩

/-- The advancement step of a due recurring bill schedule lands on the
first interval boundary strictly past `now` and counts the skipped
boundaries. -/
theorem advanceSchedule_recurring (s : Schedule) (now : Nat)
    (hr : s.recurring = true) (hi : 0 < s.interval)
    (hd : s.next_due ≤ now) :
    ∃ k, 1 ≤ k
      ∧ advanceSchedule s now =
          { s with
            last_executed := some now,
            missed_count := s.missed_count + (k - 1),
            next_due := s.next_due + k * s.interval }
      ∧ now < s.next_due + k * s.interval
      ∧ s.next_due + (k - 1) * s.interval ≤ now := by
  have hspec := catchUpLoop_spec s.interval hi now (s.next_due + s.interval)
  obtain ⟨h1, h2, h3⟩ := hspec
  set r := catchUpLoop s.interval hi now (s.next_due + s.interval) with hr'
  refine ⟨r.1 + 1, by omega, ?_, ?_, ?_⟩
  · simp only [advanceSchedule]
    rw [dif_pos (And.intro hr hi)]
    simp only [Schedule.mk.injEq, Nat.add_sub_cancel, eq_self_iff_true,
      and_true, true_and]
    rw [← hr', h1]; ring
  · have : r.2 = s.next_due + (r.1 + 1) * s.interval := by rw [h1]; ring
    omega
  · simp only [Nat.add_sub_cancel]
    match hm : r.1 with
    | 0 => simpa using hd
    | j + 1 =>
      have := h3 j (by omega)
      calc s.next_due + (j + 1) * s.interval
          = s.next_due + s.interval + j * s.interval := by ring
        _ ≤ now := this

/-- Insurance analogue of `advanceSchedule_spec`. -/
theorem advancePremiumSchedule_spec (s : PremiumSchedule) (now : Nat) :
    (advancePremiumSchedule s now).last_executed = some now
      ∧ s.missed_count ≤ (advancePremiumSchedule s now).missed_count
      ∧ (s.active = false → (advancePremiumSchedule s now).active = false)
      ∧ ((advancePremiumSchedule s now).active = false
          ∨ now < (advancePremiumSchedule s now).next_due) := by
  unfold advancePremiumSchedule
  by_cases h : s.recurring = true ∧ 0 < s.interval
  · rw [dif_pos h]
    refine ⟨rfl, by simp, fun ha => ha, Or.inr ?_⟩
    exact (catchUpLoop_spec s.interval h.2 now (s.next_due + s.interval)).2.1
  · rw [dif_neg h]
    exact ⟨rfl, le_rfl, fun _ => rfl, Or.inl rfl⟩

/-- Insurance analogue of `advanceSchedule_recurring`. -/
theorem advancePremiumSchedule_recurring (s : PremiumSchedule) (now : Nat)
    (hr : s.recurring = true) (hi : 0 < s.interval)
    (hd : s.next_due ≤ now) :
    ∃ k, 1 ≤ k
      ∧ advancePremiumSchedule s now =
          { s with
            last_executed := some now,
            missed_count := s.missed_count + (k - 1),
            next_due := s.next_due + k * s.interval }
      ∧ now < s.next_due + k * s.interval
      ∧ s.next_due + (k - 1) * s.interval ≤ now := by
  have hspec := catchUpLoop_spec s.interval hi now (s.next_due + s.interval)
  obtain ⟨h1, h2, h3⟩ := hspec
  set r := catchUpLoop s.interval hi now (s.next_due + s.interval) with hr'
  refine ⟨r.1 + 1, by omega, ?_, ?_, ?_⟩
  · simp only [advancePremiumSchedule]
    rw [dif_pos (And.intro hr hi)]
    simp only [PremiumSchedule.mk.injEq, Nat.add_sub_cancel, eq_self_iff_true,
      and_true, true_and]
    rw [← hr', h1]; ring
  · have : r.2 = s.next_due + (r.1 + 1) * s.interval := by rw [h1]; ring
    omega
  · simp only [Nat.add_sub_cancel]
    match hm : r.1 with
    | 0 => simpa using hd
    | j + 1 =>
      have := h3 j (by omega)
      calc s.next_due + (j + 1) * s.interval
          = s.next_due + s.interval + j * s.interval := by ring
        _ ≤ now := this

/-!
## The bill sweep loop
-/

theorem stepSchedule_skip (now : Nat) (acc : SweepAcc)
    (p : Nat × Schedule) (h : p.2.active = false ∨ now < p.2.next_due) :
    stepSchedule now acc p = acc := by
  simp [stepSchedule, h]

theorem stepSchedule_run (now : Nat) (acc : SweepAcc) (p : Nat × Schedule)
    (ha : p.2.active = true) (hd : p.2.next_due ≤ now) :
    stepSchedule now acc p =
      { schedules := mset acc.schedules p.1 (advanceSchedule p.2 now),
        bills := (fulfillLinkedBill acc.bills acc.next_id p.1 now).1,
        next_id := (fulfillLinkedBill acc.bills acc.next_id p.1 now).2,
        executed := acc.executed ++ [p.1] } := by
  have h : ¬ (p.2.active = false ∨ now < p.2.next_due) := by
    push_neg
    exact ⟨by simp [ha], by omega⟩
  simp [stepSchedule, h]

theorem billFold_executed (now : Nat) :
    ∀ (l : List (Nat × Schedule)) (acc : SweepAcc),
      (l.foldl (stepSchedule now) acc).executed
        = acc.executed ++ (dueEntriesB now l).map Prod.fst := by
  intro l
  induction l with
  | nil => intro acc; simp [dueEntriesB]
  | cons p rest ih =>
    intro acc
    by_cases h : p.2.active = false ∨ now < p.2.next_due
    · have hfilt : (p.2.active && decide (p.2.next_due ≤ now)) = false := by
        rcases h with h | h
        · simp [h]
        · simp [Nat.not_le.mpr h]
      simp only [List.foldl_cons, stepSchedule_skip now acc p h, ih,
        dueEntriesB, List.filter_cons, hfilt]
      simp
    · push_neg at h
      have ha : p.2.active = true := by
        cases hb : p.2.active
        · exact absurd hb h.1
        · rfl
      have hd : p.2.next_due ≤ now := by omega
      have hfilt : (p.2.active && decide (p.2.next_due ≤ now)) = true := by
        simp [ha, hd]
      simp only [List.foldl_cons, stepSchedule_run now acc p ha hd, ih,
        dueEntriesB, List.filter_cons, hfilt]
      simp

theorem billFold_mget_notdue (now : Nat) :
    ∀ (l : List (Nat × Schedule)) (acc : SweepAcc) (k : Nat),
      (∀ p ∈ l, p.1 = k → (p.2.active = false ∨ now < p.2.next_due)) →
      mget (l.foldl (stepSchedule now) acc).schedules k
        = mget acc.schedules k := by
  intro l
  induction l with
  | nil => intro acc k _; rfl
  | cons p rest ih =>
    intro acc k hk
    by_cases h : p.2.active = false ∨ now < p.2.next_due
    · simp only [List.foldl_cons, stepSchedule_skip now acc p h]
      exact ih acc k (fun q hq => hk q (List.mem_cons_of_mem _ hq))
    · push_neg at h
      have ha : p.2.active = true := by
        cases hb : p.2.active
        · exact absurd hb h.1
        · rfl
      have hd : p.2.next_due ≤ now := by omega
      have hne : p.1 ≠ k := by
        intro he
        exact absurd (hk p (List.mem_cons_self _ _) he) (by push_neg; exact h)
      simp only [List.foldl_cons, stepSchedule_run now acc p ha hd]
      rw [ih _ k (fun q hq => hk q (List.mem_cons_of_mem _ hq))]
      exact mget_mset_ne _ _ _ _ hne

theorem billFold_mget_due (now : Nat) :
    ∀ (l : List (Nat × Schedule)) (acc : SweepAcc),
      (l.map Prod.fst).Nodup →
      ∀ p ∈ l, p.2.active = true → p.2.next_due ≤ now →
        mget (l.foldl (stepSchedule now) acc).schedules p.1
          = some (advanceSchedule p.2 now) := by
  intro l
  induction l with
  | nil => intro acc _ p hp; simp at hp
  | cons q rest ih =>
    intro acc hn p hp ha hd
    simp only [List.map_cons, List.nodup_cons] at hn
    rcases List.mem_cons.mp hp with h | h
    · subst h
      simp only [List.foldl_cons, stepSchedule_run now acc p ha hd]
      rw [billFold_mget_notdue now rest _ p.1 ?_]
      · exact mget_mset_self _ _ _
      · intro q hq he
        exact absurd (he ▸ List.mem_map.mpr ⟨q, hq, rfl⟩) hn.1
    · by_cases hq : q.2.active = false ∨ now < q.2.next_due
      · simp only [List.foldl_cons, stepSchedule_skip now acc q hq]
        exact ih _ hn.2 p h ha hd
      · push_neg at hq
        have hqa : q.2.active = true := by
          cases hb : q.2.active
          · exact absurd hb hq.1
          · rfl
        simp only [List.foldl_cons, stepSchedule_run now acc q hqa (by omega)]
        exact ih _ hn.2 p h ha hd

theorem billFold_keys (now : Nat) :
    ∀ (l : List (Nat × Schedule)) (acc : SweepAcc),
      (∀ p ∈ l, p.1 ∈ mkeys acc.schedules) →
      mkeys (l.foldl (stepSchedule now) acc).schedules
        = mkeys acc.schedules := by
  intro l
  induction l with
  | nil => intro acc _; rfl
  | cons p rest ih =>
    intro acc hmem
    by_cases h : p.2.active = false ∨ now < p.2.next_due
    · simp only [List.foldl_cons, stepSchedule_skip now acc p h]
      exact ih acc (fun q hq => hmem q (List.mem_cons_of_mem _ hq))
    · push_neg at h
      have ha : p.2.active = true := by
        cases hb : p.2.active
        · exact absurd hb h.1
        · rfl
      simp only [List.foldl_cons, stepSchedule_run now acc p ha (by omega)]
      have hkeys : mkeys (mset acc.schedules p.1 (advanceSchedule p.2 now))
          = mkeys acc.schedules :=
        mkeys_mset_of_mem _ _ _ (hmem p (List.mem_cons_self _ _))
      rw [ih _ ?_, hkeys]
      intro q hq
      rw [hkeys]
      exact hmem q (List.mem_cons_of_mem _ hq)

theorem billFold_noop (now : Nat) :
    ∀ (l : List (Nat × Schedule)) (acc : SweepAcc),
      (∀ p ∈ l, p.2.active = false ∨ now < p.2.next_due) →
      l.foldl (stepSchedule now) acc = acc := by
  intro l
  induction l with
  | nil => intro acc _; rfl
  | cons p rest ih =>
    intro acc h
    simp only [List.foldl_cons,
      stepSchedule_skip now acc p (h p (List.mem_cons_self _ _))]
    exact ih acc (fun q hq => h q (List.mem_cons_of_mem _ hq))

theorem PaidEvol_refl (m : List (Nat × Bill)) : PaidEvol m m :=
  fun _ b h hp => ⟨b, h, hp⟩

theorem PaidEvol_trans {a b c : List (Nat × Bill)}
    (h₁ : PaidEvol a b) (h₂ : PaidEvol b c) : PaidEvol a c := by
  intro k x hx hp
  obtain ⟨y, hy, hyp⟩ := h₁ k x hx hp
  exact h₂ k y hy hyp

theorem SchedEvol_refl (m : List (Nat × Schedule)) : SchedEvol m m :=
  fun _ s h => ⟨s, h, le_rfl, fun ha => ha⟩

theorem SchedEvol_trans {a b c : List (Nat × Schedule)}
    (h₁ : SchedEvol a b) (h₂ : SchedEvol b c) : SchedEvol a c := by
  intro k s hs
  obtain ⟨t, ht, hm, ha⟩ := h₁ k s hs
  obtain ⟨u, hu, hm', ha'⟩ := h₂ k t ht
  exact ⟨u, hu, le_trans hm hm', fun h => ha' (ha h)⟩

theorem PremEvol_refl (m : List (Nat × PremiumSchedule)) : PremEvol m m :=
  fun _ s h => ⟨s, h, le_rfl, fun ha => ha⟩

theorem PremEvol_trans {a b c : List (Nat × PremiumSchedule)}
    (h₁ : PremEvol a b) (h₂ : PremEvol b c) : PremEvol a c := by
  intro k s hs
  obtain ⟨t, ht, hm, ha⟩ := h₁ k s hs
  obtain ⟨u, hu, hm', ha'⟩ := h₂ k t ht
  exact ⟨u, hu, le_trans hm hm', fun h => ha' (ha h)⟩

theorem fulfillLinkedBill_spec (bills : List (Nat × Bill))
    (next_id sid now : Nat) (hn : (mkeys bills).Nodup)
    (hb : storeBounded bills next_id) :
    ((mkeys (fulfillLinkedBill bills next_id sid now).1).Nodup
        ∧ storeBounded (fulfillLinkedBill bills next_id sid now).1
            (fulfillLinkedBill bills next_id sid now).2)
      ∧ PaidEvol bills (fulfillLinkedBill bills next_id sid now).1
      ∧ next_id ≤ (fulfillLinkedBill bills next_id sid now).2 := by
  cases hf : find_bill_by_schedule bills sid with
  | none =>
    simp only [fulfillLinkedBill, hf]
    exact ⟨⟨hn, hb⟩, PaidEvol_refl _, le_rfl⟩
  | some bid =>
    cases hm : mget bills bid with
    | none =>
      simp only [fulfillLinkedBill, hf, hm]
      exact ⟨⟨hn, hb⟩, PaidEvol_refl _, le_rfl⟩
    | some bill =>
      by_cases hp : bill.paid = true
      · simp only [fulfillLinkedBill, hf, hm, if_pos hp]
        exact ⟨⟨hn, hb⟩, PaidEvol_refl _, le_rfl⟩
      · have hbid : bid ∈ mkeys bills := mem_mkeys_of_mget _ _ _ hm
        have hfresh : next_id + 1 ∉ mkeys bills := by
          intro hmem
          have := hb _ hmem
          omega
        have hPaid : ∀ (m' : List (Nat × Bill)),
            (∀ k, k ≠ bid → k ≤ next_id → mget m' k = mget bills k) →
            PaidEvol bills m' := by
          intro m' hsame k b hk hbp
          have hkb : k ≠ bid := by
            intro he
            rw [he, hm] at hk
            cases hk
            exact hp hbp
          have hkn : k ≤ next_id := hb _ (mem_mkeys_of_mget _ _ _ hk)
          exact ⟨b, by rw [hsame k hkb hkn, hk], hbp⟩
        by_cases hr : bill.recurring = true
        · simp only [fulfillLinkedBill, hf, hm, if_neg hp, if_pos hr]
          have hkeys1 : mkeys (mset bills (next_id + 1)
              { id := next_id + 1, owner := bill.owner, name := bill.name,
                amount := bill.amount,
                due_date := bill.due_date + bill.frequency_days * 86400,
                recurring := true, frequency_days := bill.frequency_days,
                paid := false, created_at := now, paid_at := none,
                schedule_id := bill.schedule_id })
              = mkeys bills ++ [next_id + 1] :=
            mkeys_mset_of_not_mem _ _ _ hfresh
          have hbid1 : bid ∈ mkeys (mset bills (next_id + 1)
              { id := next_id + 1, owner := bill.owner, name := bill.name,
                amount := bill.amount,
                due_date := bill.due_date + bill.frequency_days * 86400,
                recurring := true, frequency_days := bill.frequency_days,
                paid := false, created_at := now, paid_at := none,
                schedule_id := bill.schedule_id }) := by
            rw [hkeys1]
            exact List.mem_append_left _ hbid
          have hkeys2 := mkeys_mset_of_mem _ bid
            { bill with paid := true, paid_at := some now } hbid1
          refine ⟨⟨?_, ?_⟩, ?_, by omega⟩
          · rw [hkeys2, hkeys1]
            rw [List.nodup_append]
            refine ⟨hn, List.nodup_singleton _, ?_⟩
            intro x hx hx1
            simp only [List.mem_singleton] at hx1
            subst hx1
            exact hfresh hx
          · intro k hk
            rw [hkeys2, hkeys1] at hk
            rcases List.mem_append.mp hk with h | h
            · have := hb _ h
              omega
            · simp only [List.mem_singleton] at h
              omega
          · refine hPaid _ (fun k hkb hkn => ?_)
            rw [mget_mset_ne _ _ _ _ (fun he => hkb he.symm),
              mget_mset_ne _ _ _ _ (by omega)]
        · simp only [fulfillLinkedBill, hf, hm, if_neg hp, if_neg hr]
          have hkeys := mkeys_mset_of_mem bills bid
            { bill with paid := true, paid_at := some now } hbid
          refine ⟨⟨by rw [hkeys]; exact hn, ?_⟩, ?_, le_rfl⟩
          · intro k hk
            rw [hkeys] at hk
            exact hb _ hk
          · refine hPaid _ (fun k hkb hkn => ?_)
            rw [mget_mset_ne _ _ _ _ (fun he => hkb he.symm)]

theorem billFold_bills (now : Nat) :
    ∀ (l : List (Nat × Schedule)) (acc : SweepAcc),
      (mkeys acc.bills).Nodup → storeBounded acc.bills acc.next_id →
      ((mkeys (l.foldl (stepSchedule now) acc).bills).Nodup
          ∧ storeBounded (l.foldl (stepSchedule now) acc).bills
              (l.foldl (stepSchedule now) acc).next_id)
        ∧ PaidEvol acc.bills (l.foldl (stepSchedule now) acc).bills
        ∧ acc.next_id ≤ (l.foldl (stepSchedule now) acc).next_id := by
  intro l
  induction l with
  | nil => intro acc hn hb; exact ⟨⟨hn, hb⟩, PaidEvol_refl _, le_rfl⟩
  | cons p rest ih =>
    intro acc hn hb
    by_cases h : p.2.active = false ∨ now < p.2.next_due
    · simp only [List.foldl_cons, stepSchedule_skip now acc p h]
      exact ih acc hn hb
    · push_neg at h
      have ha : p.2.active = true := by
        cases hbb : p.2.active
        · exact absurd hbb h.1
        · rfl
      simp only [List.foldl_cons, stepSchedule_run now acc p ha (by omega)]
      obtain ⟨⟨hn', hb'⟩, hpe, hle⟩ :=
        fulfillLinkedBill_spec acc.bills acc.next_id p.1 now hn hb
      obtain ⟨⟨hn'', hb''⟩, hpe', hle'⟩ := ih
        { schedules := mset acc.schedules p.1 (advanceSchedule p.2 now),
          bills := (fulfillLinkedBill acc.bills acc.next_id p.1 now).1,
          next_id := (fulfillLinkedBill acc.bills acc.next_id p.1 now).2,
          executed := acc.executed ++ [p.1] } hn' hb'
      exact ⟨⟨hn'', hb''⟩, PaidEvol_trans hpe hpe', le_trans hle hle'⟩

/-!
## The insurance sweep loop
-/

theorem stepPremiumSchedule_skip (now : Nat) (acc : ISweepAcc)
    (p : Nat × PremiumSchedule)
    (h : p.2.active = false ∨ now < p.2.next_due) :
    stepPremiumSchedule now acc p = acc := by
  simp [stepPremiumSchedule, h]

theorem stepPremiumSchedule_run (now : Nat) (acc : ISweepAcc)
    (p : Nat × PremiumSchedule)
    (ha : p.2.active = true) (hd : p.2.next_due ≤ now) :
    stepPremiumSchedule now acc p =
      { schedules :=
          mset acc.schedules p.1 (advancePremiumSchedule p.2 now),
        policies := fulfillLinkedPolicy acc.policies p.2.policy_id now,
        executed := acc.executed ++ [p.1] } := by
  have h : ¬ (p.2.active = false ∨ now < p.2.next_due) := by
    push_neg
    exact ⟨by simp [ha], by omega⟩
  simp [stepPremiumSchedule, h]

theorem insFold_executed (now : Nat) :
    ∀ (l : List (Nat × PremiumSchedule)) (acc : ISweepAcc),
      (l.foldl (stepPremiumSchedule now) acc).executed
        = acc.executed ++ (dueEntriesI now l).map Prod.fst := by
  intro l
  induction l with
  | nil => intro acc; simp [dueEntriesI]
  | cons p rest ih =>
    intro acc
    by_cases h : p.2.active = false ∨ now < p.2.next_due
    · have hfilt : (p.2.active && decide (p.2.next_due ≤ now)) = false := by
        rcases h with h | h
        · simp [h]
        · simp [Nat.not_le.mpr h]
      simp only [List.foldl_cons, stepPremiumSchedule_skip now acc p h, ih,
        dueEntriesI, List.filter_cons, hfilt]
      simp
    · push_neg at h
      have ha : p.2.active = true := by
        cases hb : p.2.active
        · exact absurd hb h.1
        · rfl
      have hd : p.2.next_due ≤ now := by omega
      have hfilt : (p.2.active && decide (p.2.next_due ≤ now)) = true := by
        simp [ha, hd]
      simp only [List.foldl_cons, stepPremiumSchedule_run now acc p ha hd, ih,
        dueEntriesI, List.filter_cons, hfilt]
      simp

theorem insFold_mget_notdue (now : Nat) :
    ∀ (l : List (Nat × PremiumSchedule)) (acc : ISweepAcc) (k : Nat),
      (∀ p ∈ l, p.1 = k → (p.2.active = false ∨ now < p.2.next_due)) →
      mget (l.foldl (stepPremiumSchedule now) acc).schedules k
        = mget acc.schedules k := by
  intro l
  induction l with
  | nil => intro acc k _; rfl
  | cons p rest ih =>
    intro acc k hk
    by_cases h : p.2.active = false ∨ now < p.2.next_due
    · simp only [List.foldl_cons, stepPremiumSchedule_skip now acc p h]
      exact ih acc k (fun q hq => hk q (List.mem_cons_of_mem _ hq))
    · push_neg at h
      have ha : p.2.active = true := by
        cases hb : p.2.active
        · exact absurd hb h.1
        · rfl
      have hd : p.2.next_due ≤ now := by omega
      have hne : p.1 ≠ k := by
        intro he
        exact absurd (hk p (List.mem_cons_self _ _) he) (by push_neg; exact h)
      simp only [List.foldl_cons, stepPremiumSchedule_run now acc p ha hd]
      rw [ih _ k (fun q hq => hk q (List.mem_cons_of_mem _ hq))]
      exact mget_mset_ne _ _ _ _ hne

theorem insFold_mget_due (now : Nat) :
    ∀ (l : List (Nat × PremiumSchedule)) (acc : ISweepAcc),
      (l.map Prod.fst).Nodup →
      ∀ p ∈ l, p.2.active = true → p.2.next_due ≤ now →
        mget (l.foldl (stepPremiumSchedule now) acc).schedules p.1
          = some (advancePremiumSchedule p.2 now) := by
  intro l
  induction l with
  | nil => intro acc _ p hp; simp at hp
  | cons q rest ih =>
    intro acc hn p hp ha hd
    simp only [List.map_cons, List.nodup_cons] at hn
    rcases List.mem_cons.mp hp with h | h
    · subst h
      simp only [List.foldl_cons, stepPremiumSchedule_run now acc p ha hd]
      rw [insFold_mget_notdue now rest _ p.1 ?_]
      · exact mget_mset_self _ _ _
      · intro q hq he
        exact absurd (he ▸ List.mem_map.mpr ⟨q, hq, rfl⟩) hn.1
    · by_cases hq : q.2.active = false ∨ now < q.2.next_due
      · simp only [List.foldl_cons, stepPremiumSchedule_skip now acc q hq]
        exact ih _ hn.2 p h ha hd
      · push_neg at hq
        have hqa : q.2.active = true := by
          cases hb : q.2.active
          · exact absurd hb hq.1
          · rfl
        simp only [List.foldl_cons,
          stepPremiumSchedule_run now acc q hqa (by omega)]
        exact ih _ hn.2 p h ha hd

theorem insFold_keys (now : Nat) :
    ∀ (l : List (Nat × PremiumSchedule)) (acc : ISweepAcc),
      (∀ p ∈ l, p.1 ∈ mkeys acc.schedules) →
      mkeys (l.foldl (stepPremiumSchedule now) acc).schedules
        = mkeys acc.schedules := by
  intro l
  induction l with
  | nil => intro acc _; rfl
  | cons p rest ih =>
    intro acc hmem
    by_cases h : p.2.active = false ∨ now < p.2.next_due
    · simp only [List.foldl_cons, stepPremiumSchedule_skip now acc p h]
      exact ih acc (fun q hq => hmem q (List.mem_cons_of_mem _ hq))
    · push_neg at h
      have ha : p.2.active = true := by
        cases hb : p.2.active
        · exact absurd hb h.1
        · rfl
      simp only [List.foldl_cons,
        stepPremiumSchedule_run now acc p ha (by omega)]
      have hkeys : mkeys (mset acc.schedules p.1
          (advancePremiumSchedule p.2 now)) = mkeys acc.schedules :=
        mkeys_mset_of_mem _ _ _ (hmem p (List.mem_cons_self _ _))
      rw [ih _ ?_, hkeys]
      intro q hq
      rw [hkeys]
      exact hmem q (List.mem_cons_of_mem _ hq)

theorem insFold_noop (now : Nat) :
    ∀ (l : List (Nat × PremiumSchedule)) (acc : ISweepAcc),
      (∀ p ∈ l, p.2.active = false ∨ now < p.2.next_due) →
      l.foldl (stepPremiumSchedule now) acc = acc := by
  intro l
  induction l with
  | nil => intro acc _; rfl
  | cons p rest ih =>
    intro acc h
    simp only [List.foldl_cons,
      stepPremiumSchedule_skip now acc p (h p (List.mem_cons_self _ _))]
    exact ih acc (fun q hq => h q (List.mem_cons_of_mem _ hq))

/-!
## Whole-sweep facts
-/

theorem execB_executed (σ : BState) (now : Nat) :
    (execute_due_schedules σ now).1
      = (dueEntriesB now σ.schedules).map Prod.fst := by
  simp only [execute_due_schedules]
  rw [billFold_executed]
  simp

theorem execB_keys (σ : BState) (now : Nat) :
    mkeys (execute_due_schedules σ now).2.schedules
      = mkeys σ.schedules := by
  simp only [execute_due_schedules]
  exact billFold_keys now σ.schedules _
    (fun p hp => List.mem_map.mpr ⟨p, hp, rfl⟩)

theorem execB_post_nodue (σ : BState) (now : Nat)
    (hn : (mkeys σ.schedules).Nodup) :
    ∀ q ∈ (execute_due_schedules σ now).2.schedules,
      q.2.active = false ∨ now < q.2.next_due := by
  intro q hq
  have hkeys := execB_keys σ now
  have hn' : (mkeys (execute_due_schedules σ now).2.schedules).Nodup := by
    rw [hkeys]; exact hn
  have hqget : mget (execute_due_schedules σ now).2.schedules q.1 = some q.2 :=
    mget_some_of_mem _ _ hn' hq
  by_cases hd : ∀ p ∈ σ.schedules, p.1 = q.1 →
      (p.2.active = false ∨ now < p.2.next_due)
  · have := billFold_mget_notdue now σ.schedules
      { schedules := σ.schedules, bills := σ.bills, next_id := σ.next_id,
        executed := [] } q.1 hd
    simp only [execute_due_schedules] at hqget
    rw [this] at hqget
    exact hd (q.1, q.2) (mem_of_mget _ _ _ hqget) rfl
  · push_neg at hd
    obtain ⟨p, hp, hpk, hpa, hpd⟩ := hd
    have hpa' : p.2.active = true := by
      cases hb : p.2.active
      · exact absurd hb hpa
      · rfl
    have := billFold_mget_due now σ.schedules
      { schedules := σ.schedules, bills := σ.bills, next_id := σ.next_id,
        executed := [] } hn p hp hpa' (by omega)
    simp only [execute_due_schedules] at hqget
    rw [hpk] at this
    rw [this] at hqget
    have hq2 : advanceSchedule p.2 now = q.2 := by injection hqget
    rw [← hq2]
    exact (advanceSchedule_spec p.2 now).2.2.2

theorem execB_noop (σ : BState) (now : Nat)
    (h : ∀ q ∈ σ.schedules, q.2.active = false ∨ now < q.2.next_due) :
    execute_due_schedules σ now = ([], σ) := by
  simp only [execute_due_schedules]
  rw [billFold_noop now σ.schedules _ h]

theorem execI_executed (σ : IState) (now : Nat) :
    (execute_due_premium_schedules σ now).1
      = (dueEntriesI now σ.schedules).map Prod.fst := by
  simp only [execute_due_premium_schedules]
  rw [insFold_executed]
  simp

theorem execI_keys (σ : IState) (now : Nat) :
    mkeys (execute_due_premium_schedules σ now).2.schedules
      = mkeys σ.schedules := by
  simp only [execute_due_premium_schedules]
  exact insFold_keys now σ.schedules _
    (fun p hp => List.mem_map.mpr ⟨p, hp, rfl⟩)

theorem execI_post_nodue (σ : IState) (now : Nat)
    (hn : (mkeys σ.schedules).Nodup) :
    ∀ q ∈ (execute_due_premium_schedules σ now).2.schedules,
      q.2.active = false ∨ now < q.2.next_due := by
  intro q hq
  have hkeys := execI_keys σ now
  have hn' :
      (mkeys (execute_due_premium_schedules σ now).2.schedules).Nodup := by
    rw [hkeys]; exact hn
  have hqget :
      mget (execute_due_premium_schedules σ now).2.schedules q.1
        = some q.2 :=
    mget_some_of_mem _ _ hn' hq
  by_cases hd : ∀ p ∈ σ.schedules, p.1 = q.1 →
      (p.2.active = false ∨ now < p.2.next_due)
  · have := insFold_mget_notdue now σ.schedules
      { schedules := σ.schedules, policies := σ.policies, executed := [] }
      q.1 hd
    simp only [execute_due_premium_schedules] at hqget
    rw [this] at hqget
    exact hd (q.1, q.2) (mem_of_mget _ _ _ hqget) rfl
  · push_neg at hd
    obtain ⟨p, hp, hpk, hpa, hpd⟩ := hd
    have hpa' : p.2.active = true := by
      cases hb : p.2.active
      · exact absurd hb hpa
      · rfl
    have := insFold_mget_due now σ.schedules
      { schedules := σ.schedules, policies := σ.policies, executed := [] }
      hn p hp hpa' (by omega)
    simp only [execute_due_premium_schedules] at hqget
    rw [hpk] at this
    rw [this] at hqget
    have hq2 : advancePremiumSchedule p.2 now = q.2 := by injection hqget
    rw [← hq2]
    exact (advancePremiumSchedule_spec p.2 now).2.2.2

theorem execI_noop (σ : IState) (now : Nat)
    (h : ∀ q ∈ σ.schedules, q.2.active = false ∨ now < q.2.next_due) :
    execute_due_premium_schedules σ now = ([], σ) := by
  simp only [execute_due_premium_schedules]
  rw [insFold_noop now σ.schedules _ h]

/-!
## Per-operation frame and evolution facts
-/

theorem runBillOp_err_frame (op : BillOp) (now : Nat) (σ : BState)
    (e : Error) (h : (runBillOp op now σ).1 = some e) :
    (runBillOp op now σ).2 = σ := by
  cases op with
  | createBill o n a d r f =>
    by_cases h1 : a ≤ 0
    · simp only [runBillOp, create_bill, if_pos h1]
    · by_cases h2 : (r && f == 0) = true
      · simp only [runBillOp, create_bill, if_neg h1, if_pos h2]
      · simp only [runBillOp, create_bill, if_neg h1, if_neg h2, errOf] at h
        exact Option.noConfusion h
  | payBill c b =>
    cases hm : mget σ.bills b with
    | none => simp only [runBillOp, pay_bill, hm]
    | some bill =>
      by_cases h1 : bill.owner ≠ c
      · simp only [runBillOp, pay_bill, hm, if_pos h1]
      · by_cases h2 : bill.paid = true
        · simp only [runBillOp, pay_bill, hm, if_neg h1, if_pos h2]
        · by_cases h3 : bill.recurring = true
          · simp only [runBillOp, pay_bill, hm, if_neg h1, if_neg h2,
              if_pos h3, errOf] at h
            exact Option.noConfusion h
          · simp only [runBillOp, pay_bill, hm, if_neg h1, if_neg h2,
              if_neg h3, errOf] at h
            exact Option.noConfusion h
  | cancelBill b =>
    cases hm : mget σ.bills b with
    | none => simp only [runBillOp, cancel_bill, hm]
    | some bill =>
      simp only [runBillOp, cancel_bill, hm, errOf] at h
      exact Option.noConfusion h
  | createSchedule o b nd i =>
    cases hm : mget σ.bills b with
    | none => simp only [runBillOp, create_schedule, hm]
    | some bill =>
      by_cases h1 : bill.owner ≠ o
      · simp only [runBillOp, create_schedule, hm, if_pos h1]
      · by_cases h2 : nd ≤ now
        · simp only [runBillOp, create_schedule, hm, if_neg h1, if_pos h2]
        · simp only [runBillOp, create_schedule, hm, if_neg h1, if_neg h2,
            errOf] at h
          exact Option.noConfusion h
  | modifySchedule c s nd i =>
    cases hm : mget σ.schedules s with
    | none => simp only [runBillOp, modify_schedule, hm]
    | some sch =>
      by_cases h1 : sch.owner ≠ c
      · simp only [runBillOp, modify_schedule, hm, if_pos h1]
      · by_cases h2 : nd ≤ now
        · simp only [runBillOp, modify_schedule, hm, if_neg h1, if_pos h2]
        · simp only [runBillOp, modify_schedule, hm, if_neg h1, if_neg h2,
            errOf] at h
          exact Option.noConfusion h
  | cancelSchedule c s =>
    cases hm : mget σ.schedules s with
    | none => simp only [runBillOp, cancel_schedule, hm]
    | some sch =>
      by_cases h1 : sch.owner ≠ c
      · simp only [runBillOp, cancel_schedule, hm, if_pos h1]
      · simp only [runBillOp, cancel_schedule, hm, if_neg h1, errOf] at h
        exact Option.noConfusion h
  | sweep =>
    simp only [runBillOp] at h
    exact Option.noConfusion h

theorem runInsOp_err_frame (op : InsOp) (now : Nat) (σ : IState)
    (e : String) (h : (runInsOp op now σ).1 = some e) :
    (runInsOp op now σ).2 = σ := by
  cases op with
  | createPolicy o n ct mp ca =>
    by_cases h1 : mp ≤ 0
    · simp only [runInsOp, create_policy, if_pos h1]
    · by_cases h2 : ca ≤ 0
      · simp only [runInsOp, create_policy, if_neg h1, if_pos h2]
      · simp only [runInsOp, create_policy, if_neg h1, if_neg h2,
          panicOf] at h
        exact Option.noConfusion h
  | payPremium c pid =>
    cases hm : mget σ.policies pid with
    | none => simp only [runInsOp, pay_premium, hm]
    | some policy =>
      by_cases h1 : policy.owner ≠ c
      · simp only [runInsOp, pay_premium, hm, if_pos h1]
      · by_cases h2 : policy.active = false
        · simp only [runInsOp, pay_premium, hm, if_neg h1, if_pos h2]
        · simp only [runInsOp, pay_premium, hm, if_neg h1, if_neg h2,
            panicOf] at h
          exact Option.noConfusion h
  | deactivatePolicy c pid =>
    cases hm : mget σ.policies pid with
    | none => simp only [runInsOp, deactivate_policy, hm]
    | some policy =>
      by_cases h1 : policy.owner ≠ c
      · simp only [runInsOp, deactivate_policy, hm, if_pos h1]
      · simp only [runInsOp, deactivate_policy, hm, if_neg h1, panicOf] at h
        exact Option.noConfusion h
  | createPremiumSchedule o pid nd i =>
    cases hm : mget σ.policies pid with
    | none => simp only [runInsOp, create_premium_schedule, hm]
    | some policy =>
      by_cases h1 : policy.owner ≠ o
      · simp only [runInsOp, create_premium_schedule, hm, if_pos h1]
      · by_cases h2 : nd ≤ now
        · simp only [runInsOp, create_premium_schedule, hm, if_neg h1,
            if_pos h2]
        · simp only [runInsOp, create_premium_schedule, hm, if_neg h1,
            if_neg h2, panicOf] at h
          exact Option.noConfusion h
  | modifyPremiumSchedule c s nd i =>
    by_cases h2 : nd ≤ now
    · simp only [runInsOp, modify_premium_schedule, if_pos h2]
    · cases hm : mget σ.schedules s with
      | none => simp only [runInsOp, modify_premium_schedule, if_neg h2, hm]
      | some sch =>
        by_cases h1 : sch.owner ≠ c
        · simp only [runInsOp, modify_premium_schedule, if_neg h2, hm,
            if_pos h1]
        · simp only [runInsOp, modify_premium_schedule, if_neg h2, hm,
            if_neg h1, panicOf] at h
          exact Option.noConfusion h
  | cancelPremiumSchedule c s =>
    cases hm : mget σ.schedules s with
    | none => simp only [runInsOp, cancel_premium_schedule, hm]
    | some sch =>
      by_cases h1 : sch.owner ≠ c
      · simp only [runInsOp, cancel_premium_schedule, hm, if_pos h1]
      · simp only [runInsOp, cancel_premium_schedule, hm, if_neg h1,
          panicOf] at h
        exact Option.noConfusion h
  | sweep =>
    simp only [runInsOp] at h
    exact Option.noConfusion h

theorem runBillOp_sched_evol (op : BillOp) (now : Nat) (σ : BState)
    (hinv : schedInvB σ) :
    schedInvB (runBillOp op now σ).2
      ∧ SchedEvol σ.schedules (runBillOp op now σ).2.schedules := by
  obtain ⟨hn, hb⟩ := hinv
  cases op with
  | createBill o n a d r f =>
    by_cases h1 : a ≤ 0
    · simp only [runBillOp, create_bill, if_pos h1]
      exact ⟨⟨hn, hb⟩, SchedEvol_refl _⟩
    · by_cases h2 : (r && f == 0) = true
      · simp only [runBillOp, create_bill, if_neg h1, if_pos h2]
        exact ⟨⟨hn, hb⟩, SchedEvol_refl _⟩
      · simp only [runBillOp, create_bill, if_neg h1, if_neg h2]
        exact ⟨⟨hn, hb⟩, SchedEvol_refl _⟩
  | payBill c b =>
    cases hm : mget σ.bills b with
    | none =>
      simp only [runBillOp, pay_bill, hm]
      exact ⟨⟨hn, hb⟩, SchedEvol_refl _⟩
    | some bill =>
      by_cases h1 : bill.owner ≠ c
      · simp only [runBillOp, pay_bill, hm, if_pos h1]
        exact ⟨⟨hn, hb⟩, SchedEvol_refl _⟩
      · by_cases h2 : bill.paid = true
        · simp only [runBillOp, pay_bill, hm, if_neg h1, if_pos h2]
          exact ⟨⟨hn, hb⟩, SchedEvol_refl _⟩
        · by_cases h3 : bill.recurring = true
          · simp only [runBillOp, pay_bill, hm, if_neg h1, if_neg h2,
              if_pos h3]
            exact ⟨⟨hn, hb⟩, SchedEvol_refl _⟩
          · simp only [runBillOp, pay_bill, hm, if_neg h1, if_neg h2,
              if_neg h3]
            exact ⟨⟨hn, hb⟩, SchedEvol_refl _⟩
  | cancelBill b =>
    cases hm : mget σ.bills b with
    | none =>
      simp only [runBillOp, cancel_bill, hm]
      exact ⟨⟨hn, hb⟩, SchedEvol_refl _⟩
    | some bill =>
      simp only [runBillOp, cancel_bill, hm]
      exact ⟨⟨hn, hb⟩, SchedEvol_refl _⟩
  | createSchedule o b nd i =>
    cases hm : mget σ.bills b with
    | none =>
      simp only [runBillOp, create_schedule, hm]
      exact ⟨⟨hn, hb⟩, SchedEvol_refl _⟩
    | some bill =>
      by_cases h1 : bill.owner ≠ o
      · simp only [runBillOp, create_schedule, hm, if_pos h1]
        exact ⟨⟨hn, hb⟩, SchedEvol_refl _⟩
      · by_cases h2 : nd ≤ now
        · simp only [runBillOp, create_schedule, hm, if_neg h1, if_pos h2]
          exact ⟨⟨hn, hb⟩, SchedEvol_refl _⟩
        · simp only [runBillOp, create_schedule, hm, if_neg h1, if_neg h2]
          have hfresh : σ.next_sch + 1 ∉ mkeys σ.schedules := by
            intro hmem
            have := hb _ hmem
            omega
          have hkeys := mkeys_mset_of_not_mem σ.schedules (σ.next_sch + 1)
            { id := σ.next_sch + 1, owner := o, next_due := nd,
              interval := i, recurring := decide (0 < i), active := true,
              created_at := now, last_executed := none,
              missed_count := 0 } hfresh
          refine ⟨⟨?_, ?_⟩, ?_⟩
          · rw [hkeys, List.nodup_append]
            refine ⟨hn, List.nodup_singleton _, ?_⟩
            intro x hx hx1
            simp only [List.mem_singleton] at hx1
            subst hx1
            exact hfresh hx
          · intro k hk
            rw [hkeys] at hk
            rcases List.mem_append.mp hk with hmem | hmem
            · have := hb _ hmem
              show k ≤ σ.next_sch + 1
              omega
            · simp only [List.mem_singleton] at hmem
              show k ≤ σ.next_sch + 1
              omega
          · intro k s hk
            have hkb : k ≤ σ.next_sch := hb _ (mem_mkeys_of_mget _ _ _ hk)
            refine ⟨s, ?_, le_rfl, fun ha => ha⟩
            rw [mget_mset_ne _ _ _ _ (by omega : σ.next_sch + 1 ≠ k)]
            exact hk
  | modifySchedule c sid nd i =>
    cases hm : mget σ.schedules sid with
    | none =>
      simp only [runBillOp, modify_schedule, hm]
      exact ⟨⟨hn, hb⟩, SchedEvol_refl _⟩
    | some sch =>
      by_cases h1 : sch.owner ≠ c
      · simp only [runBillOp, modify_schedule, hm, if_pos h1]
        exact ⟨⟨hn, hb⟩, SchedEvol_refl _⟩
      · by_cases h2 : nd ≤ now
        · simp only [runBillOp, modify_schedule, hm, if_neg h1, if_pos h2]
          exact ⟨⟨hn, hb⟩, SchedEvol_refl _⟩
        · simp only [runBillOp, modify_schedule, hm, if_neg h1, if_neg h2]
          have hsk : sid ∈ mkeys σ.schedules := mem_mkeys_of_mget _ _ _ hm
          have hkeys := mkeys_mset_of_mem σ.schedules sid
            { sch with
              next_due := nd,
              interval := i,
              recurring := decide (0 < i) } hsk
          refine ⟨⟨by rw [hkeys]; exact hn, ?_⟩, ?_⟩
          · intro k hk
            rw [hkeys] at hk
            exact hb _ hk
          · intro k s₀ hk
            by_cases hks : k = sid
            · subst hks
              have hss : sch = s₀ := by
                rw [hm] at hk
                injection hk
              subst hss
              exact ⟨_, mget_mset_self _ _ _, le_rfl, fun ha => ha⟩
            · refine ⟨s₀, ?_, le_rfl, fun ha => ha⟩
              rw [mget_mset_ne _ _ _ _ (fun he => hks he.symm)]
              exact hk
  | cancelSchedule c sid =>
    cases hm : mget σ.schedules sid with
    | none =>
      simp only [runBillOp, cancel_schedule, hm]
      exact ⟨⟨hn, hb⟩, SchedEvol_refl _⟩
    | some sch =>
      by_cases h1 : sch.owner ≠ c
      · simp only [runBillOp, cancel_schedule, hm, if_pos h1]
        exact ⟨⟨hn, hb⟩, SchedEvol_refl _⟩
      · simp only [runBillOp, cancel_schedule, hm, if_neg h1]
        have hsk : sid ∈ mkeys σ.schedules := mem_mkeys_of_mget _ _ _ hm
        have hkeys := mkeys_mset_of_mem σ.schedules sid
          { sch with active := false } hsk
        refine ⟨⟨by rw [hkeys]; exact hn, ?_⟩, ?_⟩
        · intro k hk
          rw [hkeys] at hk
          exact hb _ hk
        · intro k s₀ hk
          by_cases hks : k = sid
          · subst hks
            have hss : sch = s₀ := by
              rw [hm] at hk
              injection hk
            subst hss
            exact ⟨_, mget_mset_self _ _ _, le_rfl, fun _ => rfl⟩
          · refine ⟨s₀, ?_, le_rfl, fun ha => ha⟩
            rw [mget_mset_ne _ _ _ _ (fun he => hks he.symm)]
            exact hk
  | sweep =>
    simp only [runBillOp]
    refine ⟨⟨?_, ?_⟩, ?_⟩
    · rw [execB_keys]
      exact hn
    · intro k hk
      rw [execB_keys] at hk
      exact hb _ hk
    · intro k s hk
      have hmem := mem_of_mget _ _ _ hk
      by_cases hd : s.active = false ∨ now < s.next_due
      · have heq : mget (execute_due_schedules σ now).2.schedules k
            = mget σ.schedules k := by
          simp only [execute_due_schedules]
          apply billFold_mget_notdue
          intro p hp hpk
          have hps := mget_some_of_mem σ.schedules p hn hp
          rw [hpk, hk] at hps
          have : s = p.2 := by injection hps
          rw [← this]
          exact hd
        rw [heq, hk]
        exact ⟨s, rfl, le_rfl, fun ha => ha⟩
      · push_neg at hd
        have ha : s.active = true := by
          cases hbb : s.active
          · exact absurd hbb hd.1
          · rfl
        have heq : mget (execute_due_schedules σ now).2.schedules k
            = some (advanceSchedule s now) := by
          simp only [execute_due_schedules]
          exact billFold_mget_due now σ.schedules _ hn (k, s) hmem ha
            (show s.next_due ≤ now by omega)
        exact ⟨advanceSchedule s now, heq,
          (advanceSchedule_spec s now).2.1,
          fun hf => (advanceSchedule_spec s now).2.2.1 hf⟩

theorem runBillOps_sched_evol :
    ∀ (ops : List (BillOp × Nat)) (σ : BState), schedInvB σ →
      schedInvB (runBillOps ops σ)
        ∧ SchedEvol σ.schedules (runBillOps ops σ).schedules := by
  intro ops
  induction ops with
  | nil => intro σ h; exact ⟨h, SchedEvol_refl _⟩
  | cons p rest ih =>
    intro σ h
    obtain ⟨h1, h2⟩ := runBillOp_sched_evol p.1 p.2 σ h
    obtain ⟨h3, h4⟩ := ih (runBillOp p.1 p.2 σ).2 h1
    exact ⟨h3, SchedEvol_trans h2 h4⟩

theorem runInsOp_sched_evol (op : InsOp) (now : Nat) (σ : IState)
    (hinv : schedInvI σ) :
    schedInvI (runInsOp op now σ).2
      ∧ PremEvol σ.schedules (runInsOp op now σ).2.schedules := by
  obtain ⟨hn, hb⟩ := hinv
  cases op with
  | createPolicy o n ct mp ca =>
    by_cases h1 : mp ≤ 0
    · simp only [runInsOp, create_policy, if_pos h1]
      exact ⟨⟨hn, hb⟩, PremEvol_refl _⟩
    · by_cases h2 : ca ≤ 0
      · simp only [runInsOp, create_policy, if_neg h1, if_pos h2]
        exact ⟨⟨hn, hb⟩, PremEvol_refl _⟩
      · simp only [runInsOp, create_policy, if_neg h1, if_neg h2]
        exact ⟨⟨hn, hb⟩, PremEvol_refl _⟩
  | payPremium c pid =>
    cases hm : mget σ.policies pid with
    | none =>
      simp only [runInsOp, pay_premium, hm]
      exact ⟨⟨hn, hb⟩, PremEvol_refl _⟩
    | some policy =>
      by_cases h1 : policy.owner ≠ c
      · simp only [runInsOp, pay_premium, hm, if_pos h1]
        exact ⟨⟨hn, hb⟩, PremEvol_refl _⟩
      · by_cases h2 : policy.active = false
        · simp only [runInsOp, pay_premium, hm, if_neg h1, if_pos h2]
          exact ⟨⟨hn, hb⟩, PremEvol_refl _⟩
        · simp only [runInsOp, pay_premium, hm, if_neg h1, if_neg h2]
          exact ⟨⟨hn, hb⟩, PremEvol_refl _⟩
  | deactivatePolicy c pid =>
    cases hm : mget σ.policies pid with
    | none =>
      simp only [runInsOp, deactivate_policy, hm]
      exact ⟨⟨hn, hb⟩, PremEvol_refl _⟩
    | some policy =>
      by_cases h1 : policy.owner ≠ c
      · simp only [runInsOp, deactivate_policy, hm, if_pos h1]
        exact ⟨⟨hn, hb⟩, PremEvol_refl _⟩
      · simp only [runInsOp, deactivate_policy, hm, if_neg h1]
        exact ⟨⟨hn, hb⟩, PremEvol_refl _⟩
  | createPremiumSchedule o pid nd i =>
    cases hm : mget σ.policies pid with
    | none =>
      simp only [runInsOp, create_premium_schedule, hm]
      exact ⟨⟨hn, hb⟩, PremEvol_refl _⟩
    | some policy =>
      by_cases h1 : policy.owner ≠ o
      · simp only [runInsOp, create_premium_schedule, hm, if_pos h1]
        exact ⟨⟨hn, hb⟩, PremEvol_refl _⟩
      · by_cases h2 : nd ≤ now
        · simp only [runInsOp, create_premium_schedule, hm, if_neg h1,
            if_pos h2]
          exact ⟨⟨hn, hb⟩, PremEvol_refl _⟩
        · simp only [runInsOp, create_premium_schedule, hm, if_neg h1,
            if_neg h2]
          have hfresh : σ.next_psch + 1 ∉ mkeys σ.schedules := by
            intro hmem
            have := hb _ hmem
            omega
          have hkeys := mkeys_mset_of_not_mem σ.schedules (σ.next_psch + 1)
            { id := σ.next_psch + 1, owner := o, policy_id := pid,
              next_due := nd, interval := i, recurring := decide (0 < i),
              active := true, created_at := now, last_executed := none,
              missed_count := 0 } hfresh
          refine ⟨⟨?_, ?_⟩, ?_⟩
          · rw [hkeys, List.nodup_append]
            refine ⟨hn, List.nodup_singleton _, ?_⟩
            intro x hx hx1
            simp only [List.mem_singleton] at hx1
            subst hx1
            exact hfresh hx
          · intro k hk
            rw [hkeys] at hk
            rcases List.mem_append.mp hk with hmem | hmem
            · have := hb _ hmem
              show k ≤ σ.next_psch + 1
              omega
            · simp only [List.mem_singleton] at hmem
              show k ≤ σ.next_psch + 1
              omega
          · intro k s hk
            have hkb : k ≤ σ.next_psch := hb _ (mem_mkeys_of_mget _ _ _ hk)
            refine ⟨s, ?_, le_rfl, fun ha => ha⟩
            rw [mget_mset_ne _ _ _ _ (by omega : σ.next_psch + 1 ≠ k)]
            exact hk
  | modifyPremiumSchedule c sid nd i =>
    by_cases h2 : nd ≤ now
    · simp only [runInsOp, modify_premium_schedule, if_pos h2]
      exact ⟨⟨hn, hb⟩, PremEvol_refl _⟩
    · cases hm : mget σ.schedules sid with
      | none =>
        simp only [runInsOp, modify_premium_schedule, if_neg h2, hm]
        exact ⟨⟨hn, hb⟩, PremEvol_refl _⟩
      | some sch =>
        by_cases h1 : sch.owner ≠ c
        · simp only [runInsOp, modify_premium_schedule, if_neg h2, hm,
            if_pos h1]
          exact ⟨⟨hn, hb⟩, PremEvol_refl _⟩
        · simp only [runInsOp, modify_premium_schedule, if_neg h2, hm,
            if_neg h1]
          have hsk : sid ∈ mkeys σ.schedules := mem_mkeys_of_mget _ _ _ hm
          have hkeys := mkeys_mset_of_mem σ.schedules sid
            { sch with
              next_due := nd,
              interval := i,
              recurring := decide (0 < i) } hsk
          refine ⟨⟨by rw [hkeys]; exact hn, ?_⟩, ?_⟩
          · intro k hk
            rw [hkeys] at hk
            exact hb _ hk
          · intro k s₀ hk
            by_cases hks : k = sid
            · subst hks
              have hss : sch = s₀ := by
                rw [hm] at hk
                injection hk
              subst hss
              exact ⟨_, mget_mset_self _ _ _, le_rfl, fun ha => ha⟩
            · refine ⟨s₀, ?_, le_rfl, fun ha => ha⟩
              rw [mget_mset_ne _ _ _ _ (fun he => hks he.symm)]
              exact hk
  | cancelPremiumSchedule c sid =>
    cases hm : mget σ.schedules sid with
    | none =>
      simp only [runInsOp, cancel_premium_schedule, hm]
      exact ⟨⟨hn, hb⟩, PremEvol_refl _⟩
    | some sch =>
      by_cases h1 : sch.owner ≠ c
      · simp only [runInsOp, cancel_premium_schedule, hm, if_pos h1]
        exact ⟨⟨hn, hb⟩, PremEvol_refl _⟩
      · simp only [runInsOp, cancel_premium_schedule, hm, if_neg h1]
        have hsk : sid ∈ mkeys σ.schedules := mem_mkeys_of_mget _ _ _ hm
        have hkeys := mkeys_mset_of_mem σ.schedules sid
          { sch with active := false } hsk
        refine ⟨⟨by rw [hkeys]; exact hn, ?_⟩, ?_⟩
        · intro k hk
          rw [hkeys] at hk
          exact hb _ hk
        · intro k s₀ hk
          by_cases hks : k = sid
          · subst hks
            have hss : sch = s₀ := by
              rw [hm] at hk
              injection hk
            subst hss
            exact ⟨_, mget_mset_self _ _ _, le_rfl, fun _ => rfl⟩
          · refine ⟨s₀, ?_, le_rfl, fun ha => ha⟩
            rw [mget_mset_ne _ _ _ _ (fun he => hks he.symm)]
            exact hk
  | sweep =>
    simp only [runInsOp]
    refine ⟨⟨?_, ?_⟩, ?_⟩
    · rw [execI_keys]
      exact hn
    · intro k hk
      rw [execI_keys] at hk
      exact hb _ hk
    · intro k s hk
      have hmem := mem_of_mget _ _ _ hk
      by_cases hd : s.active = false ∨ now < s.next_due
      · have heq : mget (execute_due_premium_schedules σ now).2.schedules k
            = mget σ.schedules k := by
          simp only [execute_due_premium_schedules]
          apply insFold_mget_notdue
          intro p hp hpk
          have hps := mget_some_of_mem σ.schedules p hn hp
          rw [hpk, hk] at hps
          have : s = p.2 := by injection hps
          rw [← this]
          exact hd
        rw [heq, hk]
        exact ⟨s, rfl, le_rfl, fun ha => ha⟩
      · push_neg at hd
        have ha : s.active = true := by
          cases hbb : s.active
          · exact absurd hbb hd.1
          · rfl
        have heq : mget (execute_due_premium_schedules σ now).2.schedules k
            = some (advancePremiumSchedule s now) := by
          simp only [execute_due_premium_schedules]
          exact insFold_mget_due now σ.schedules _ hn (k, s) hmem ha
            (show s.next_due ≤ now by omega)
        exact ⟨advancePremiumSchedule s now, heq,
          (advancePremiumSchedule_spec s now).2.1,
          fun hf => (advancePremiumSchedule_spec s now).2.2.1 hf⟩

theorem runInsOps_sched_evol :
    ∀ (ops : List (InsOp × Nat)) (σ : IState), schedInvI σ →
      schedInvI (runInsOps ops σ)
        ∧ PremEvol σ.schedules (runInsOps ops σ).schedules := by
  intro ops
  induction ops with
  | nil => intro σ h; exact ⟨h, PremEvol_refl _⟩
  | cons p rest ih =>
    intro σ h
    obtain ⟨h1, h2⟩ := runInsOp_sched_evol p.1 p.2 σ h
    obtain ⟨h3, h4⟩ := ih (runInsOp p.1 p.2 σ).2 h1
    exact ⟨h3, PremEvol_trans h2 h4⟩

theorem runBillOp_paid (op : BillOp) (now : Nat) (σ : BState)
    (hn : (mkeys σ.bills).Nodup) (hb : storeBounded σ.bills σ.next_id) :
    ∀ k b b', mget σ.bills k = some b → b.paid = true →
      mget (runBillOp op now σ).2.bills k = some b' → b'.paid = true := by
  intro k b b' hk hp hk'
  have hkmem : k ∈ mkeys σ.bills := mem_mkeys_of_mget _ _ _ hk
  have hkb : k ≤ σ.next_id := hb _ hkmem
  cases op with
  | createBill o n a d r f =>
    by_cases h1 : a ≤ 0
    · simp only [runBillOp, create_bill, if_pos h1] at hk'
      rw [hk] at hk'
      injection hk' with h
      rw [← h]
      exact hp
    · by_cases h2 : (r && f == 0) = true
      · simp only [runBillOp, create_bill, if_neg h1, if_pos h2] at hk'
        rw [hk] at hk'
        injection hk' with h
        rw [← h]
        exact hp
      · simp only [runBillOp, create_bill, if_neg h1, if_neg h2] at hk'
        rw [mget_mset_ne _ _ _ _ (by omega : σ.next_id + 1 ≠ k), hk] at hk'
        injection hk' with h
        rw [← h]
        exact hp
  | payBill c bid =>
    cases hm : mget σ.bills bid with
    | none =>
      simp only [runBillOp, pay_bill, hm] at hk'
      rw [hk] at hk'
      injection hk' with h
      rw [← h]
      exact hp
    | some bill =>
      by_cases h1 : bill.owner ≠ c
      · simp only [runBillOp, pay_bill, hm, if_pos h1] at hk'
        rw [hk] at hk'
        injection hk' with h
        rw [← h]
        exact hp
      · by_cases h2 : bill.paid = true
        · simp only [runBillOp, pay_bill, hm, if_neg h1, if_pos h2] at hk'
          rw [hk] at hk'
          injection hk' with h
          rw [← h]
          exact hp
        · have hkbid : k ≠ bid := by
            intro he
            rw [he, hm] at hk
            injection hk with h
            rw [h] at h2
            exact h2 hp
          by_cases h3 : bill.recurring = true
          · simp only [runBillOp, pay_bill, hm, if_neg h1, if_neg h2,
              if_pos h3] at hk'
            rw [mget_mset_ne _ _ _ _ (fun he => hkbid he.symm),
              mget_mset_ne _ _ _ _ (by omega : σ.next_id + 1 ≠ k),
              hk] at hk'
            injection hk' with h
            rw [← h]
            exact hp
          · simp only [runBillOp, pay_bill, hm, if_neg h1, if_neg h2,
              if_neg h3] at hk'
            rw [mget_mset_ne _ _ _ _ (fun he => hkbid he.symm), hk] at hk'
            injection hk' with h
            rw [← h]
            exact hp
  | cancelBill bid =>
    cases hm : mget σ.bills bid with
    | none =>
      simp only [runBillOp, cancel_bill, hm] at hk'
      rw [hk] at hk'
      injection hk' with h
      rw [← h]
      exact hp
    | some bill =>
      simp only [runBillOp, cancel_bill, hm] at hk'
      by_cases hkbid : k = bid
      · subst hkbid
        rw [mget_mremove_self _ _ hn] at hk'
        exact Option.noConfusion hk'
      · rw [mget_mremove_ne _ _ _ (fun he => hkbid he.symm), hk] at hk'
        injection hk' with h
        rw [← h]
        exact hp
  | createSchedule o bid nd i =>
    cases hm : mget σ.bills bid with
    | none =>
      simp only [runBillOp, create_schedule, hm] at hk'
      rw [hk] at hk'
      injection hk' with h
      rw [← h]
      exact hp
    | some bill =>
      by_cases h1 : bill.owner ≠ o
      · simp only [runBillOp, create_schedule, hm, if_pos h1] at hk'
        rw [hk] at hk'
        injection hk' with h
        rw [← h]
        exact hp
      · by_cases h2 : nd ≤ now
        · simp only [runBillOp, create_schedule, hm, if_neg h1,
            if_pos h2] at hk'
          rw [hk] at hk'
          injection hk' with h
          rw [← h]
          exact hp
        · simp only [runBillOp, create_schedule, hm, if_neg h1,
            if_neg h2] at hk'
          by_cases hkbid : k = bid
          · subst hkbid
            rw [hm] at hk
            injection hk with h
            rw [mget_mset_self] at hk'
            injection hk' with h'
            rw [← h']
            show bill.paid = true
            rw [h]
            exact hp
          · rw [mget_mset_ne _ _ _ _ (fun he => hkbid he.symm), hk] at hk'
            injection hk' with h
            rw [← h]
            exact hp
  | modifySchedule c sid nd i =>
    cases hm : mget σ.schedules sid with
    | none =>
      simp only [runBillOp, modify_schedule, hm] at hk'
      rw [hk] at hk'
      injection hk' with h
      rw [← h]
      exact hp
    | some sch =>
      by_cases h1 : sch.owner ≠ c
      · simp only [runBillOp, modify_schedule, hm, if_pos h1] at hk'
        rw [hk] at hk'
        injection hk' with h
        rw [← h]
        exact hp
      · by_cases h2 : nd ≤ now
        · simp only [runBillOp, modify_schedule, hm, if_neg h1,
            if_pos h2] at hk'
          rw [hk] at hk'
          injection hk' with h
          rw [← h]
          exact hp
        · simp only [runBillOp, modify_schedule, hm, if_neg h1,
            if_neg h2] at hk'
          rw [hk] at hk'
          injection hk' with h
          rw [← h]
          exact hp
  | cancelSchedule c sid =>
    cases hm : mget σ.schedules sid with
    | none =>
      simp only [runBillOp, cancel_schedule, hm] at hk'
      rw [hk] at hk'
      injection hk' with h
      rw [← h]
      exact hp
    | some sch =>
      by_cases h1 : sch.owner ≠ c
      · simp only [runBillOp, cancel_schedule, hm, if_pos h1] at hk'
        rw [hk] at hk'
        injection hk' with h
        rw [← h]
        exact hp
      · simp only [runBillOp, cancel_schedule, hm, if_neg h1] at hk'
        rw [hk] at hk'
        injection hk' with h
        rw [← h]
        exact hp
  | sweep =>
    simp only [runBillOp, execute_due_schedules] at hk'
    obtain ⟨_, hpe, _⟩ := billFold_bills now σ.schedules
      { schedules := σ.schedules, bills := σ.bills, next_id := σ.next_id,
        executed := [] } hn hb
    obtain ⟨b'', hb'', hb''p⟩ := hpe k b hk hp
    rw [hb''] at hk'
    injection hk' with h
    rw [← h]
    exact hb''p

/-!
## Claim theorems
-/

/-- C1: for every active recurring schedule (`interval > 0`) with
`nextDue ≤ now` that the sweep processes, the new `nextDue` is the
smallest value `nextDue + k * interval` (`k ≥ 1`) strictly greater than
`now`, and exactly `k - 1` is added to `missedCount`; in both contract
variants (`stepSchedule` / `stepPremiumSchedule` are the loop bodies of
the two sweeps). -/
theorem catchup_arithmetic :
    (∀ (now : Nat) (acc : SweepAcc) (sid : Nat) (s : Schedule),
      s.active = true → s.recurring = true → 0 < s.interval →
      s.next_due ≤ now →
      ∃ k, 1 ≤ k
        ∧ mget (stepSchedule now acc (sid, s)).schedules sid =
            some { s with
                   last_executed := some now,
                   missed_count := s.missed_count + (k - 1),
                   next_due := s.next_due + k * s.interval }
        ∧ now < s.next_due + k * s.interval
        ∧ s.next_due + (k - 1) * s.interval ≤ now)
    ∧ (∀ (now : Nat) (acc : ISweepAcc) (sid : Nat) (s : PremiumSchedule),
      s.active = true → s.recurring = true → 0 < s.interval →
      s.next_due ≤ now →
      ∃ k, 1 ≤ k
        ∧ mget (stepPremiumSchedule now acc (sid, s)).schedules sid =
            some { s with
                   last_executed := some now,
                   missed_count := s.missed_count + (k - 1),
                   next_due := s.next_due + k * s.interval }
        ∧ now < s.next_due + k * s.interval
        ∧ s.next_due + (k - 1) * s.interval ≤ now) := by
  constructor
  · intro now acc sid s ha hr hi hd
    obtain ⟨k, hk1, heq, hlt, hle⟩ := advanceSchedule_recurring s now hr hi hd
    refine ⟨k, hk1, ?_, hlt, hle⟩
    rw [stepSchedule_run now acc (sid, s) ha hd]
    show mget (mset acc.schedules sid (advanceSchedule s now)) sid = _
    rw [mget_mset_self, heq]
  · intro now acc sid s ha hr hi hd
    obtain ⟨k, hk1, heq, hlt, hle⟩ :=
      advancePremiumSchedule_recurring s now hr hi hd
    refine ⟨k, hk1, ?_, hlt, hle⟩
    rw [stepPremiumSchedule_run now acc (sid, s) ha hd]
    show mget (mset acc.schedules sid (advancePremiumSchedule s now)) sid = _
    rw [mget_mset_self, heq]

/-- C1 witness: the spec's concrete instance — `nextDue = 3000`,
`interval = 86400`, swept at `now = 3000 + 86400*3 + 100 = 262300`,
ends with `missedCount = 3` and `nextDue = 3000 + 86400*4 = 348600`;
and the same for the insurance variant. -/
theorem catchup_arithmetic_witness :
    mget (stepSchedule 262300
        (⟨[(1, ⟨1, 7, 3000, 86400, true, true, 1000, none, 0⟩)], [], 0, []⟩ :
          SweepAcc)
        (1, ⟨1, 7, 3000, 86400, true, true, 1000, none, 0⟩)).schedules 1
      = some ⟨1, 7, 348600, 86400, true, true, 1000, some 262300, 3⟩
    ∧ mget (stepPremiumSchedule 262300
        (⟨[(1, ⟨1, 7, 9, 3000, 86400, true, true, 1000, none, 0⟩)], [], []⟩ :
          ISweepAcc)
        (1, ⟨1, 7, 9, 3000, 86400, true, true, 1000, none, 0⟩)).schedules 1
      = some ⟨1, 7, 9, 348600, 86400, true, true, 1000, some 262300, 3⟩ := by
  constructor
  · obtain ⟨k, hk1, heq, hlt, hle⟩ := catchup_arithmetic.1 262300
      (⟨[(1, ⟨1, 7, 3000, 86400, true, true, 1000, none, 0⟩)], [], 0, []⟩ :
        SweepAcc)
      1 ⟨1, 7, 3000, 86400, true, true, 1000, none, 0⟩
      rfl rfl (by norm_num) (by norm_num)
    have hk : k = 4 := by
      simp only at hlt hle
      omega
    subst hk
    rw [heq]
    decide
  · obtain ⟨k, hk1, heq, hlt, hle⟩ := catchup_arithmetic.2 262300
      (⟨[(1, ⟨1, 7, 9, 3000, 86400, true, true, 1000, none, 0⟩)], [], []⟩ :
        ISweepAcc)
      1 ⟨1, 7, 9, 3000, 86400, true, true, 1000, none, 0⟩
      rfl rfl (by norm_num) (by norm_num)
    have hk : k = 4 := by
      simp only at hlt hle
      omega
    subst hk
    rw [heq]
    decide

/-- C9: the catch-up loop is total — entered under the guard
`recurring && interval > 0`, its value strictly exceeds `now`, and it is
the start value plus `missed` intervals (each iteration strictly
increases `next`); hence both sweeps' advancement always lands strictly
past `now`. -/
theorem catchup_terminates :
    (∀ (interval : Nat) (h : 0 < interval) (now next : Nat),
      now < (catchUpLoop interval h now next).2
        ∧ (catchUpLoop interval h now next).2
            = next + (catchUpLoop interval h now next).1 * interval)
    ∧ (∀ (s : Schedule) (now : Nat), s.recurring = true → 0 < s.interval →
        now < (advanceSchedule s now).next_due)
    ∧ (∀ (s : PremiumSchedule) (now : Nat), s.recurring = true →
        0 < s.interval → now < (advancePremiumSchedule s now).next_due) := by
  refine ⟨?_, ?_, ?_⟩
  · intro interval h now next
    obtain ⟨h1, h2, _⟩ := catchUpLoop_spec interval h now next
    exact ⟨h2, h1⟩
  · intro s now hr hi
    unfold advanceSchedule
    rw [dif_pos (And.intro hr hi)]
    exact (catchUpLoop_spec s.interval hi now (s.next_due + s.interval)).2.1
  · intro s now hr hi
    unfold advancePremiumSchedule
    rw [dif_pos (And.intro hr hi)]
    exact (catchUpLoop_spec s.interval hi now (s.next_due + s.interval)).2.1

/-- C9 witness: a concrete run of the loop. -/
theorem catchup_terminates_witness :
    (0 < 5 ∧ 12 < (catchUpLoop 5 (by norm_num) 12 3).2
      ∧ (catchUpLoop 5 (by norm_num) 12 3).2
          = 3 + (catchUpLoop 5 (by norm_num) 12 3).1 * 5)
    ∧ 9000 < (advanceSchedule ⟨1, 7, 40, 86400, true, true, 0, none, 0⟩
        9000).next_due
    ∧ 9000 < (advancePremiumSchedule
        ⟨1, 7, 9, 40, 86400, true, true, 0, none, 0⟩ 9000).next_due := by
  refine ⟨⟨by norm_num, ?_, ?_⟩, ?_, ?_⟩
  · exact (catchup_terminates.1 5 (by norm_num) 12 3).1
  · exact (catchup_terminates.1 5 (by norm_num) 12 3).2
  · exact catchup_terminates.2.1 ⟨1, 7, 40, 86400, true, true, 0, none, 0⟩
      9000 rfl (by norm_num)
  · exact catchup_terminates.2.2 ⟨1, 7, 9, 40, 86400, true, true, 0, none, 0⟩
      9000 rfl (by norm_num)

/-- C4: a due active schedule whose linked obligation cannot be
resolved (no bill back-references the schedule / the policy id is
absent) is still executed: no obligation is mutated, no id consumed,
the schedule's timing is advanced (or the one-time schedule
deactivated), and its id is appended to the result list; the sweep
does not fail (the step is a total function). -/
theorem orphan_tolerance :
    (∀ (now : Nat) (acc : SweepAcc) (sid : Nat) (s : Schedule),
      s.active = true → s.next_due ≤ now →
      find_bill_by_schedule acc.bills sid = none →
      stepSchedule now acc (sid, s)
          = { schedules := mset acc.schedules sid (advanceSchedule s now),
              bills := acc.bills, next_id := acc.next_id,
              executed := acc.executed ++ [sid] }
        ∧ (advanceSchedule s now).last_executed = some now
        ∧ ((advanceSchedule s now).active = false
            ∨ now < (advanceSchedule s now).next_due)
        ∧ s.missed_count ≤ (advanceSchedule s now).missed_count
        ∧ (¬(s.recurring = true ∧ 0 < s.interval) →
            (advanceSchedule s now).active = false))
    ∧ (∀ (now : Nat) (acc : ISweepAcc) (sid : Nat) (s : PremiumSchedule),
      s.active = true → s.next_due ≤ now →
      mget acc.policies s.policy_id = none →
      stepPremiumSchedule now acc (sid, s)
          = { schedules :=
                mset acc.schedules sid (advancePremiumSchedule s now),
              policies := acc.policies,
              executed := acc.executed ++ [sid] }
        ∧ (advancePremiumSchedule s now).last_executed = some now
        ∧ ((advancePremiumSchedule s now).active = false
            ∨ now < (advancePremiumSchedule s now).next_due)
        ∧ s.missed_count ≤ (advancePremiumSchedule s now).missed_count
        ∧ (¬(s.recurring = true ∧ 0 < s.interval) →
            (advancePremiumSchedule s now).active = false)) := by
  constructor
  · intro now acc sid s ha hd hf
    have hful : fulfillLinkedBill acc.bills acc.next_id sid now
        = (acc.bills, acc.next_id) := by
      simp only [fulfillLinkedBill, hf]
    refine ⟨?_, (advanceSchedule_spec s now).1,
      (advanceSchedule_spec s now).2.2.2,
      (advanceSchedule_spec s now).2.1, ?_⟩
    · rw [stepSchedule_run now acc (sid, s) ha hd, hful]
    · intro hcond
      unfold advanceSchedule
      rw [dif_neg hcond]
  · intro now acc sid s ha hd hf
    have hful : fulfillLinkedPolicy acc.policies s.policy_id now
        = acc.policies := by
      simp only [fulfillLinkedPolicy, hf]
    refine ⟨?_, (advancePremiumSchedule_spec s now).1,
      (advancePremiumSchedule_spec s now).2.2.2,
      (advancePremiumSchedule_spec s now).2.1, ?_⟩
    · rw [stepPremiumSchedule_run now acc (sid, s) ha hd, hful]
    · intro hcond
      unfold advancePremiumSchedule
      rw [dif_neg hcond]

/-- C4 witness: a due one-time schedule with no linked obligation in
the store, in both variants. -/
theorem orphan_tolerance_witness :
    (stepSchedule 3500
        (⟨[(1, ⟨1, 7, 3000, 0, false, true, 1000, none, 0⟩)], [], 0, []⟩ :
          SweepAcc)
        (1, ⟨1, 7, 3000, 0, false, true, 1000, none, 0⟩)
        = { schedules := mset
              [(1, ⟨1, 7, 3000, 0, false, true, 1000, none, 0⟩)] 1
              (advanceSchedule ⟨1, 7, 3000, 0, false, true, 1000, none, 0⟩
                3500),
            bills := [], next_id := 0, executed := [] ++ [1] }
      ∧ (advanceSchedule ⟨1, 7, 3000, 0, false, true, 1000, none, 0⟩
          3500).active = false)
    ∧ (stepPremiumSchedule 3500
        (⟨[(1, ⟨1, 7, 9, 3000, 0, false, true, 1000, none, 0⟩)], [], []⟩ :
          ISweepAcc)
        (1, ⟨1, 7, 9, 3000, 0, false, true, 1000, none, 0⟩)
        = { schedules := mset
              [(1, ⟨1, 7, 9, 3000, 0, false, true, 1000, none, 0⟩)] 1
              (advancePremiumSchedule
                ⟨1, 7, 9, 3000, 0, false, true, 1000, none, 0⟩ 3500),
            policies := [], executed := [] ++ [1] }
      ∧ (advancePremiumSchedule
          ⟨1, 7, 9, 3000, 0, false, true, 1000, none, 0⟩ 3500).active
          = false) := by
  constructor
  · have h := orphan_tolerance.1 3500
      (⟨[(1, ⟨1, 7, 3000, 0, false, true, 1000, none, 0⟩)], [], 0, []⟩ :
        SweepAcc)
      1 ⟨1, 7, 3000, 0, false, true, 1000, none, 0⟩
      rfl (by norm_num) rfl
    exact ⟨h.1, h.2.2.2.2 (by simp)⟩
  · have h := orphan_tolerance.2 3500
      (⟨[(1, ⟨1, 7, 9, 3000, 0, false, true, 1000, none, 0⟩)], [], []⟩ :
        ISweepAcc)
      1 ⟨1, 7, 9, 3000, 0, false, true, 1000, none, 0⟩
      rfl (by norm_num) rfl
    exact ⟨h.1, h.2.2.2.2 (by simp)⟩

/-- C2: the sweep is idempotent per tick — with distinct schedule keys,
the first sweep returns exactly the ids of the active schedules with
`nextDue ≤ now` (each once), every executed schedule ends inactive or
strictly in the future, and an immediately repeated sweep at the same
time returns the empty list and changes nothing; both variants. -/
theorem sweep_idempotent :
    (∀ (σ : BState) (now : Nat), (mkeys σ.schedules).Nodup →
      (execute_due_schedules σ now).1
          = (dueEntriesB now σ.schedules).map Prod.fst
        ∧ (execute_due_schedules σ now).1.Nodup
        ∧ (∀ sid ∈ (execute_due_schedules σ now).1,
            ∃ s', mget (execute_due_schedules σ now).2.schedules sid
                = some s'
              ∧ (s'.active = false ∨ now < s'.next_due))
        ∧ execute_due_schedules (execute_due_schedules σ now).2 now
            = ([], (execute_due_schedules σ now).2))
    ∧ (∀ (σ : IState) (now : Nat), (mkeys σ.schedules).Nodup →
      (execute_due_premium_schedules σ now).1
          = (dueEntriesI now σ.schedules).map Prod.fst
        ∧ (execute_due_premium_schedules σ now).1.Nodup
        ∧ (∀ sid ∈ (execute_due_premium_schedules σ now).1,
            ∃ s', mget (execute_due_premium_schedules σ now).2.schedules sid
                = some s'
              ∧ (s'.active = false ∨ now < s'.next_due))
        ∧ execute_due_premium_schedules
              (execute_due_premium_schedules σ now).2 now
            = ([], (execute_due_premium_schedules σ now).2)) := by
  constructor
  · intro σ now hn
    refine ⟨execB_executed σ now, ?_, ?_, ?_⟩
    · rw [execB_executed]
      show ((σ.schedules.filter
        (fun p => p.2.active && decide (p.2.next_due ≤ now))).map
          Prod.fst).Nodup
      exact List.Sublist.nodup
        ((List.filter_sublist σ.schedules).map Prod.fst) hn
    · intro sid hsid
      rw [execB_executed] at hsid
      obtain ⟨p, hpf, hpk⟩ := List.mem_map.mp hsid
      simp only [dueEntriesB] at hpf
      obtain ⟨hpl, hpred⟩ := List.mem_filter.mp hpf
      rw [Bool.and_eq_true] at hpred
      obtain ⟨ha, hd⟩ := hpred
      have hd' : p.2.next_due ≤ now := of_decide_eq_true hd
      subst hpk
      refine ⟨advanceSchedule p.2 now, ?_,
        (advanceSchedule_spec p.2 now).2.2.2⟩
      simp only [execute_due_schedules]
      exact billFold_mget_due now σ.schedules _ hn p hpl ha hd'
    · exact execB_noop _ now (execB_post_nodue σ now hn)
  · intro σ now hn
    refine ⟨execI_executed σ now, ?_, ?_, ?_⟩
    · rw [execI_executed]
      show ((σ.schedules.filter
        (fun p => p.2.active && decide (p.2.next_due ≤ now))).map
          Prod.fst).Nodup
      exact List.Sublist.nodup
        ((List.filter_sublist σ.schedules).map Prod.fst) hn
    · intro sid hsid
      rw [execI_executed] at hsid
      obtain ⟨p, hpf, hpk⟩ := List.mem_map.mp hsid
      simp only [dueEntriesI] at hpf
      obtain ⟨hpl, hpred⟩ := List.mem_filter.mp hpf
      rw [Bool.and_eq_true] at hpred
      obtain ⟨ha, hd⟩ := hpred
      have hd' : p.2.next_due ≤ now := of_decide_eq_true hd
      subst hpk
      refine ⟨advancePremiumSchedule p.2 now, ?_,
        (advancePremiumSchedule_spec p.2 now).2.2.2⟩
      simp only [execute_due_premium_schedules]
      exact insFold_mget_due now σ.schedules _ hn p hpl ha hd'
    · exact execI_noop _ now (execI_post_nodue σ now hn)

/-- C2 witness: a store with one due one-time schedule at `now = 3500`,
in both variants. -/
theorem sweep_idempotent_witness :
    ((execute_due_schedules
          (⟨[], [(1, ⟨1, 7, 3000, 0, false, true, 1000, none, 0⟩)], 0, 1⟩ :
            BState) 3500).1
        = (dueEntriesB 3500
            (⟨[], [(1, ⟨1, 7, 3000, 0, false, true, 1000, none, 0⟩)], 0, 1⟩ :
              BState).schedules).map Prod.fst
      ∧ execute_due_schedules
            (execute_due_schedules
              (⟨[], [(1, ⟨1, 7, 3000, 0, false, true, 1000, none, 0⟩)], 0,
                1⟩ : BState) 3500).2 3500
          = ([], (execute_due_schedules
              (⟨[], [(1, ⟨1, 7, 3000, 0, false, true, 1000, none, 0⟩)], 0,
                1⟩ : BState) 3500).2))
    ∧ ((execute_due_premium_schedules
          (⟨[], [(1, ⟨1, 7, 9, 3000, 0, false, true, 1000, none, 0⟩)], 0,
            1⟩ : IState) 3500).1
        = (dueEntriesI 3500
            (⟨[], [(1, ⟨1, 7, 9, 3000, 0, false, true, 1000, none, 0⟩)], 0,
              1⟩ : IState).schedules).map Prod.fst
      ∧ execute_due_premium_schedules
            (execute_due_premium_schedules
              (⟨[], [(1, ⟨1, 7, 9, 3000, 0, false, true, 1000, none, 0⟩)],
                0, 1⟩ : IState) 3500).2 3500
          = ([], (execute_due_premium_schedules
              (⟨[], [(1, ⟨1, 7, 9, 3000, 0, false, true, 1000, none, 0⟩)],
                0, 1⟩ : IState) 3500).2)) := by
  constructor
  · have h := sweep_idempotent.1
      (⟨[], [(1, ⟨1, 7, 3000, 0, false, true, 1000, none, 0⟩)], 0, 1⟩ :
        BState) 3500 (by decide)
    exact ⟨h.1, h.2.2.2⟩
  · have h := sweep_idempotent.2
      (⟨[], [(1, ⟨1, 7, 9, 3000, 0, false, true, 1000, none, 0⟩)], 0, 1⟩ :
        IState) 3500 (by decide)
    exact ⟨h.1, h.2.2.2⟩

/-- C5: an operation that reports an error (returned `Err` in the bill
variant, panic in the insurance variant) leaves the whole contract
state — both stores and both id counters — unchanged; in particular
creation with a non-positive amount, or recurring with zero frequency,
always fails without allocating an id. -/
theorem failed_operation_frame :
    (∀ (op : BillOp) (now : Nat) (σ : BState) (e : Error),
        (runBillOp op now σ).1 = some e → (runBillOp op now σ).2 = σ)
    ∧ (∀ (op : InsOp) (now : Nat) (σ : IState) (e : String),
        (runInsOp op now σ).1 = some e → (runInsOp op now σ).2 = σ)
    ∧ (∀ (σ : BState) (o : Nat) (n : String) (a : Int) (d : Nat) (r : Bool)
        (f now : Nat), a ≤ 0 →
        (create_bill σ o n a d r f now).1 = .error .InvalidAmount)
    ∧ (∀ (σ : BState) (o : Nat) (n : String) (a : Int) (d now : Nat),
        0 < a →
        (create_bill σ o n a d true 0 now).1 = .error .InvalidFrequency)
    ∧ (∀ (σ : IState) (o : Nat) (n ct : String) (mp ca : Int) (now : Nat),
        mp ≤ 0 →
        (create_policy σ o n ct mp ca now).1
          = .error "Monthly premium must be positive") := by
  refine ⟨runBillOp_err_frame, runInsOp_err_frame, ?_, ?_, ?_⟩
  · intro σ o n a d r f now h
    simp [create_bill, if_pos h]
  · intro σ o n a d now h
    have h1 : ¬ (a ≤ 0) := by omega
    simp [create_bill, h1]
  · intro σ o n ct mp ca now h
    simp [create_policy, if_pos h]

/-- C5 witness: concrete failing creations leave the empty state
unchanged and report the expected errors. -/
theorem failed_operation_frame_witness :
    (runBillOp (.createBill 7 "x" 0 100 false 0) 5
        (⟨[], [], 0, 0⟩ : BState)).2 = (⟨[], [], 0, 0⟩ : BState)
    ∧ (runInsOp (.createPolicy 7 "x" "h" 0 100) 5
        (⟨[], [], 0, 0⟩ : IState)).2 = (⟨[], [], 0, 0⟩ : IState)
    ∧ (create_bill (⟨[], [], 0, 0⟩ : BState) 7 "x" 0 100 false 0 5).1
        = .error .InvalidAmount
    ∧ (create_bill (⟨[], [], 0, 0⟩ : BState) 7 "x" 5 100 true 0 5).1
        = .error .InvalidFrequency
    ∧ (create_policy (⟨[], [], 0, 0⟩ : IState) 7 "x" "h" 0 100 5).1
        = .error "Monthly premium must be positive" := by
  refine ⟨?_, ?_, ?_, ?_, ?_⟩
  · exact failed_operation_frame.1 (.createBill 7 "x" 0 100 false 0) 5
      (⟨[], [], 0, 0⟩ : BState) .InvalidAmount rfl
  · exact failed_operation_frame.2.1 (.createPolicy 7 "x" "h" 0 100) 5
      (⟨[], [], 0, 0⟩ : IState) "Monthly premium must be positive" rfl
  · exact failed_operation_frame.2.2.1 (⟨[], [], 0, 0⟩ : BState) 7 "x" 0
      100 false 0 5 (by norm_num)
  · exact failed_operation_frame.2.2.2.1 (⟨[], [], 0, 0⟩ : BState) 7 "x" 5
      100 5 (by norm_num)
  · exact failed_operation_frame.2.2.2.2 (⟨[], [], 0, 0⟩ : IState) 7 "x"
      "h" 0 100 5 (by norm_num)

/-- C3 counterexample: in the insurance variant, `pay_premium` on an
active recurring obligation creates no successor obligation at all —
the store keeps its single policy (mutated in place to a
`next_payment_date` 30 days past `now`) and neither id counter
advances. -/
theorem pay_premium_no_successor :
    (pay_premium (⟨[(1, ⟨1, 5, "h", "health", 100, 50000, true, 2592000,
        none⟩)], [], 1, 0⟩ : IState) 5 1 2000).1 = .ok true
    ∧ (pay_premium (⟨[(1, ⟨1, 5, "h", "health", 100, 50000, true, 2592000,
        none⟩)], [], 1, 0⟩ : IState) 5 1 2000).2.policies
      = [(1, ⟨1, 5, "h", "health", 100, 50000, true, 2000 + 30 * 86400,
          none⟩)]
    ∧ (pay_premium (⟨[(1, ⟨1, 5, "h", "health", 100, 50000, true, 2592000,
        none⟩)], [], 1, 0⟩ : IState) 5 1 2000).2.next_id = 1
    ∧ (pay_premium (⟨[(1, ⟨1, 5, "h", "health", 100, 50000, true, 2592000,
        none⟩)], [], 1, 0⟩ : IState) 5 1 2000).2.next_psch = 0 :=
  ⟨rfl, rfl, rfl, rfl⟩

/-- C3 (amended): in the bill variant, paying a recurring bill creates
exactly one successor bill with the fresh id `NEXT_ID + 1`, due date
`dueAt + frequency*86400`, same owner/name/amount/frequency, unpaid
(`Open`), and no operation ever mutates a paid bill back to unpaid; in
the insurance variant no successor is created — `pay_premium` advances
the same policy's `next_payment_date` to `now + 30*86400` and allocates
no id. -/
theorem fulfillment_chaining :
    (∀ (σ : BState) (caller bid now : Nat) (bill : Bill),
      (mkeys σ.bills).Nodup → storeBounded σ.bills σ.next_id →
      mget σ.bills bid = some bill → bill.owner = caller →
      bill.paid = false → bill.recurring = true →
      (pay_bill σ caller bid now).1 = .ok ()
        ∧ (pay_bill σ caller bid now).2.next_id = σ.next_id + 1
        ∧ (pay_bill σ caller bid now).2.bills.length = σ.bills.length + 1
        ∧ mget (pay_bill σ caller bid now).2.bills (σ.next_id + 1)
            = some ⟨σ.next_id + 1, bill.owner, bill.name, bill.amount,
                bill.due_date + bill.frequency_days * 86400, true,
                bill.frequency_days, false, now, none, bill.schedule_id⟩
        ∧ mget (pay_bill σ caller bid now).2.bills bid
            = some { bill with paid := true, paid_at := some now })
    ∧ (∀ (op : BillOp) (now : Nat) (σ : BState),
        (mkeys σ.bills).Nodup → storeBounded σ.bills σ.next_id →
        ∀ k b b', mget σ.bills k = some b → b.paid = true →
          mget (runBillOp op now σ).2.bills k = some b' → b'.paid = true)
    ∧ (∀ (σ : IState) (caller pid now : Nat) (policy : InsurancePolicy),
        mget σ.policies pid = some policy → policy.owner = caller →
        policy.active = true →
        pay_premium σ caller pid now
            = (.ok true,
               { σ with
                 policies := mset σ.policies pid
                   { policy with next_payment_date := now + 30 * 86400 } })
          ∧ (pay_premium σ caller pid now).2.policies.length
              = σ.policies.length) := by
  refine ⟨?_, runBillOp_paid, ?_⟩
  · intro σ caller bid now bill hn hb hm ho hp hr
    have hno : ¬ (bill.owner ≠ caller) := fun hne => hne ho
    have hnp : ¬ (bill.paid = true) := by
      rw [hp]
      exact Bool.false_ne_true
    have hbid : bid ≤ σ.next_id := hb _ (mem_mkeys_of_mget _ _ _ hm)
    have hfresh : σ.next_id + 1 ∉ mkeys σ.bills := by
      intro hmem
      have := hb _ hmem
      omega
    simp only [pay_bill, hm, if_neg hno, if_neg hnp, if_pos hr]
    have hkeys1 := mkeys_mset_of_not_mem σ.bills (σ.next_id + 1)
      ⟨σ.next_id + 1, bill.owner, bill.name, bill.amount,
        bill.due_date + bill.frequency_days * 86400, true,
        bill.frequency_days, false, now, none, bill.schedule_id⟩ hfresh
    have hbidmem : bid ∈ mkeys (mset σ.bills (σ.next_id + 1)
        ⟨σ.next_id + 1, bill.owner, bill.name, bill.amount,
          bill.due_date + bill.frequency_days * 86400, true,
          bill.frequency_days, false, now, none, bill.schedule_id⟩) := by
      rw [hkeys1]
      exact List.mem_append_left _ (mem_mkeys_of_mget _ _ _ hm)
    refine ⟨trivial, trivial, ?_, ?_, ?_⟩
    · rw [length_mset_of_mem _ _ _ hbidmem,
        length_mset_of_not_mem _ _ _ hfresh]
    · rw [mget_mset_ne _ _ _ _ (by omega : bid ≠ σ.next_id + 1),
        mget_mset_self]
    · rw [mget_mset_self]
  · intro σ caller pid now policy hm ho ha
    have hno : ¬ (policy.owner ≠ caller) := fun hne => hne ho
    have hna : ¬ (policy.active = false) := by simp [ha]
    simp only [pay_premium, hm, if_neg hno, if_neg hna]
    exact ⟨trivial, length_mset_of_mem _ _ _ (mem_mkeys_of_mget _ _ _ hm)⟩

/-- C3 witness: a concrete recurring bill paid at `now = 50` spawns
its successor with id 2 and due date `2000 + 30*86400`, and a paid
bill stays paid across an operation; a concrete premium payment
mutates the policy in place. -/
theorem fulfillment_chaining_witness :
    ((pay_bill (⟨[(1, ⟨1, 7, "r", 1000, 2000, true, 30, false, 1000, none,
          none⟩)], [], 1, 0⟩ : BState) 7 1 50).1 = .ok ()
      ∧ (pay_bill (⟨[(1, ⟨1, 7, "r", 1000, 2000, true, 30, false, 1000,
          none, none⟩)], [], 1, 0⟩ : BState) 7 1 50).2.bills.length = 2
      ∧ mget (pay_bill (⟨[(1, ⟨1, 7, "r", 1000, 2000, true, 30, false,
          1000, none, none⟩)], [], 1, 0⟩ : BState) 7 1 50).2.bills 2
          = some ⟨2, 7, "r", 1000, 2000 + 30 * 86400, true, 30, false, 50,
              none, none⟩
      ∧ mget (pay_bill (⟨[(1, ⟨1, 7, "r", 1000, 2000, true, 30, false,
          1000, none, none⟩)], [], 1, 0⟩ : BState) 7 1 50).2.bills 1
          = some ⟨1, 7, "r", 1000, 2000, true, 30, true, 1000, some 50,
              none⟩)
    ∧ (⟨1, 7, "r", 1000, 2000, false, 0, true, 900, some 10, none⟩ :
        Bill).paid = true
    ∧ pay_premium (⟨[(1, ⟨1, 5, "h", "health", 100, 50000, true, 2592000,
          none⟩)], [], 1, 0⟩ : IState) 5 1 2000
        = (.ok true, (⟨[(1, ⟨1, 5, "h", "health", 100, 50000, true,
            2000 + 30 * 86400, none⟩)], [], 1, 0⟩ : IState)) := by
  refine ⟨?_, ?_, ?_⟩
  · have h := fulfillment_chaining.1
      (⟨[(1, ⟨1, 7, "r", 1000, 2000, true, 30, false, 1000, none, none⟩)],
        [], 1, 0⟩ : BState) 7 1 50
      ⟨1, 7, "r", 1000, 2000, true, 30, false, 1000, none, none⟩
      (by decide) (by decide) rfl rfl rfl rfl
    exact ⟨h.1, h.2.2.1, h.2.2.2.1, h.2.2.2.2⟩
  · exact fulfillment_chaining.2.1 (.payBill 7 1) 20
      (⟨[(1, ⟨1, 7, "r", 1000, 2000, false, 0, true, 900, some 10, none⟩)],
        [], 1, 0⟩ : BState) (by decide) (by decide) 1
      ⟨1, 7, "r", 1000, 2000, false, 0, true, 900, some 10, none⟩
      ⟨1, 7, "r", 1000, 2000, false, 0, true, 900, some 10, none⟩
      rfl rfl rfl
  · have h := fulfillment_chaining.2.2
      (⟨[(1, ⟨1, 5, "h", "health", 100, 50000, true, 2592000, none⟩)], [],
        1, 0⟩ : IState) 5 1 2000
      ⟨1, 5, "h", "health", 100, 50000, true, 2592000, none⟩
      rfl rfl rfl
    exact h.1

/-- C6: schedule creation succeeds exactly when the referenced
obligation exists, belongs to the creating owner, and `nextDue` is
strictly in the future; on success it allocates the next schedule id,
initializes the schedule active with `missedCount = 0` and no
`lastExecutedAt`, and writes the schedule id onto the obligation's
back-reference; both variants. -/
theorem schedule_creation_spec :
    (∀ (σ : BState) (o bid nd i now : Nat),
      ((∃ v, (create_schedule σ o bid nd i now).1 = Except.ok v)
        ↔ ∃ b, mget σ.bills bid = some b ∧ b.owner = o ∧ now < nd)
      ∧ (∀ b, mget σ.bills bid = some b → b.owner = o → now < nd →
          create_schedule σ o bid nd i now
            = (.ok (σ.next_sch + 1),
               { σ with
                 schedules := mset σ.schedules (σ.next_sch + 1)
                   ⟨σ.next_sch + 1, o, nd, i, decide (0 < i), true, now,
                     none, 0⟩,
                 bills := mset σ.bills bid
                   { b with schedule_id := some (σ.next_sch + 1) },
                 next_sch := σ.next_sch + 1 })))
    ∧ (∀ (σ : IState) (o pid nd i now : Nat),
      ((∃ v, (create_premium_schedule σ o pid nd i now).1 = Except.ok v)
        ↔ ∃ p, mget σ.policies pid = some p ∧ p.owner = o ∧ now < nd)
      ∧ (∀ p, mget σ.policies pid = some p → p.owner = o → now < nd →
          create_premium_schedule σ o pid nd i now
            = (.ok (σ.next_psch + 1),
               { σ with
                 schedules := mset σ.schedules (σ.next_psch + 1)
                   ⟨σ.next_psch + 1, o, pid, nd, i, decide (0 < i), true,
                     now, none, 0⟩,
                 policies := mset σ.policies pid
                   { p with schedule_id := some (σ.next_psch + 1) },
                 next_psch := σ.next_psch + 1 }))) := by
  constructor
  · intro σ o bid nd i now
    constructor
    · constructor
      · rintro ⟨v, hv⟩
        cases hm : mget σ.bills bid with
        | none =>
          simp only [create_schedule, hm] at hv
          exact Except.noConfusion hv
        | some b =>
          by_cases h1 : b.owner ≠ o
          · simp only [create_schedule, hm, if_pos h1] at hv
            exact Except.noConfusion hv
          · by_cases h2 : nd ≤ now
            · simp only [create_schedule, hm, if_neg h1, if_pos h2] at hv
              exact Except.noConfusion hv
            · exact ⟨b, rfl, not_ne_iff.mp h1, by omega⟩
      · rintro ⟨b, hm, ho, hlt⟩
        have h1 : ¬ (b.owner ≠ o) := fun hne => hne ho
        have h2 : ¬ (nd ≤ now) := by omega
        exact ⟨σ.next_sch + 1,
          by simp only [create_schedule, hm, if_neg h1, if_neg h2]⟩
    · intro b hm ho hlt
      have h1 : ¬ (b.owner ≠ o) := fun hne => hne ho
      have h2 : ¬ (nd ≤ now) := by omega
      simp only [create_schedule, hm, if_neg h1, if_neg h2]
  · intro σ o pid nd i now
    constructor
    · constructor
      · rintro ⟨v, hv⟩
        cases hm : mget σ.policies pid with
        | none =>
          simp only [create_premium_schedule, hm] at hv
          exact Except.noConfusion hv
        | some p =>
          by_cases h1 : p.owner ≠ o
          · simp only [create_premium_schedule, hm, if_pos h1] at hv
            exact Except.noConfusion hv
          · by_cases h2 : nd ≤ now
            · simp only [create_premium_schedule, hm, if_neg h1,
                if_pos h2] at hv
              exact Except.noConfusion hv
            · exact ⟨p, rfl, not_ne_iff.mp h1, by omega⟩
      · rintro ⟨p, hm, ho, hlt⟩
        have h1 : ¬ (p.owner ≠ o) := fun hne => hne ho
        have h2 : ¬ (nd ≤ now) := by omega
        exact ⟨σ.next_psch + 1,
          by simp only [create_premium_schedule, hm, if_neg h1, if_neg h2]⟩
    · intro p hm ho hlt
      have h1 : ¬ (p.owner ≠ o) := fun hne => hne ho
      have h2 : ¬ (nd ≤ now) := by omega
      simp only [create_premium_schedule, hm, if_neg h1, if_neg h2]

/-- C6 witness: concrete schedule creations at `now = 1000`,
`nextDue = 3000`, in both variants. -/
theorem schedule_creation_spec_witness :
    create_schedule (⟨[(1, ⟨1, 7, "e", 1000, 2000, false, 0, false, 1000,
          none, none⟩)], [], 1, 0⟩ : BState) 7 1 3000 86400 1000
        = (.ok 1,
           (⟨[(1, ⟨1, 7, "e", 1000, 2000, false, 0, false, 1000, none,
              some 1⟩)],
             [(1, ⟨1, 7, 3000, 86400, true, true, 1000, none, 0⟩)], 1, 1⟩ :
             BState))
    ∧ create_premium_schedule (⟨[(1, ⟨1, 5, "h", "health", 100, 50000,
          true, 2592000, none⟩)], [], 1, 0⟩ : IState) 5 1 3000 86400 1000
        = (.ok 1,
           (⟨[(1, ⟨1, 5, "h", "health", 100, 50000, true, 2592000,
              some 1⟩)],
             [(1, ⟨1, 5, 1, 3000, 86400, true, true, 1000, none, 0⟩)], 1,
             1⟩ : IState)) := by
  constructor
  · have h := (schedule_creation_spec.1
      (⟨[(1, ⟨1, 7, "e", 1000, 2000, false, 0, false, 1000, none, none⟩)],
        [], 1, 0⟩ : BState) 7 1 3000 86400 1000).2
      ⟨1, 7, "e", 1000, 2000, false, 0, false, 1000, none, none⟩
      rfl rfl (by norm_num)
    rw [h]
    rfl
  · have h := (schedule_creation_spec.2
      (⟨[(1, ⟨1, 5, "h", "health", 100, 50000, true, 2592000, none⟩)], [],
        1, 0⟩ : IState) 5 1 3000 86400 1000).2
      ⟨1, 5, "h", "health", 100, 50000, true, 2592000, none⟩
      rfl rfl (by norm_num)
    rw [h]
    rfl

/-- C7: `cancel_bill` takes no caller and performs no ownership or
authorization check: for any store it removes the bill when present
(changing nothing else — in particular no schedule is modified or
deactivated), and fails with `BillNotFound`, changing nothing, exactly
when the bill is absent. -/
theorem cancel_bill_spec :
    ∀ (σ : BState) (bid : Nat),
      (mget σ.bills bid = none →
        cancel_bill σ bid = (.error .BillNotFound, σ))
      ∧ (∀ b, mget σ.bills bid = some b →
        cancel_bill σ bid
          = (.ok (), { σ with bills := mremove σ.bills bid })) := by
  intro σ bid
  constructor
  · intro hm
    simp only [cancel_bill, hm]
  · intro b hm
    simp only [cancel_bill, hm]

/-- C7 witness: cancelling a present bill removes exactly it and keeps
the schedule store; cancelling an absent id fails and changes
nothing. -/
theorem cancel_bill_spec_witness :
    cancel_bill (⟨[(1, ⟨1, 7, "e", 1000, 2000, false, 0, false, 1000,
          none, some 1⟩)],
        [(1, ⟨1, 7, 3000, 0, false, true, 1000, none, 0⟩)], 1, 1⟩ :
        BState) 1
      = (.ok (),
         (⟨[], [(1, ⟨1, 7, 3000, 0, false, true, 1000, none, 0⟩)], 1, 1⟩ :
           BState))
    ∧ cancel_bill (⟨[], [], 0, 0⟩ : BState) 9
      = (.error .BillNotFound, (⟨[], [], 0, 0⟩ : BState)) := by
  constructor
  · have h := (cancel_bill_spec (⟨[(1, ⟨1, 7, "e", 1000, 2000, false, 0,
        false, 1000, none, some 1⟩)],
        [(1, ⟨1, 7, 3000, 0, false, true, 1000, none, 0⟩)], 1, 1⟩ :
        BState) 1).2
      ⟨1, 7, "e", 1000, 2000, false, 0, false, 1000, none, some 1⟩ rfl
    rw [h]
    rfl
  · exact (cancel_bill_spec (⟨[], [], 0, 0⟩ : BState) 9).1 rfl

/-- C10: the bill variant's schedule operations reuse bill error codes:
`create_schedule`/`modify_schedule` signal a non-future `next_due` with
`InvalidAmount`, and `modify_schedule`/`cancel_schedule` signal a
missing schedule with `BillNotFound`. -/
theorem bill_error_code_reuse :
    (∀ (σ : BState) (o bid nd i now : Nat) (b : Bill),
      mget σ.bills bid = some b → b.owner = o → nd ≤ now →
      (create_schedule σ o bid nd i now).1 = .error .InvalidAmount)
    ∧ (∀ (σ : BState) (c sid nd i now : Nat) (s : Schedule),
      mget σ.schedules sid = some s → s.owner = c → nd ≤ now →
      (modify_schedule σ c sid nd i now).1 = .error .InvalidAmount)
    ∧ (∀ (σ : BState) (c sid nd i now : Nat),
      mget σ.schedules sid = none →
      (modify_schedule σ c sid nd i now).1 = .error .BillNotFound)
    ∧ (∀ (σ : BState) (c sid : Nat),
      mget σ.schedules sid = none →
      (cancel_schedule σ c sid).1 = .error .BillNotFound) := by
  refine ⟨?_, ?_, ?_, ?_⟩
  · intro σ o bid nd i now b hm ho hd
    have h1 : ¬ (b.owner ≠ o) := fun hne => hne ho
    simp only [create_schedule, hm, if_neg h1, if_pos hd]
  · intro σ c sid nd i now s hm ho hd
    have h1 : ¬ (s.owner ≠ c) := fun hne => hne ho
    simp only [modify_schedule, hm, if_neg h1, if_pos hd]
  · intro σ c sid nd i now hm
    simp only [modify_schedule, hm]
  · intro σ c sid hm
    simp only [cancel_schedule, hm]

/-- C10 witness: concrete invocations hitting each reused code. -/
theorem bill_error_code_reuse_witness :
    (create_schedule (⟨[(1, ⟨1, 7, "e", 1000, 9000, false, 0, false, 1000,
          none, none⟩)], [], 1, 0⟩ : BState) 7 1 400 0 1000).1
        = .error .InvalidAmount
    ∧ (modify_schedule (⟨[],
          [(1, ⟨1, 7, 3000, 0, false, true, 1000, none, 0⟩)], 0, 1⟩ :
          BState) 7 1 400 0 1000).1 = .error .InvalidAmount
    ∧ (modify_schedule (⟨[], [], 0, 0⟩ : BState) 7 9 4000 0 1000).1
        = .error .BillNotFound
    ∧ (cancel_schedule (⟨[], [], 0, 0⟩ : BState) 7 9).1
        = .error .BillNotFound := by
  refine ⟨?_, ?_, ?_, ?_⟩
  · exact bill_error_code_reuse.1 (⟨[(1, ⟨1, 7, "e", 1000, 9000, false, 0,
      false, 1000, none, none⟩)], [], 1, 0⟩ : BState) 7 1 400 0 1000
      ⟨1, 7, "e", 1000, 9000, false, 0, false, 1000, none, none⟩
      rfl rfl (by norm_num)
  · exact bill_error_code_reuse.2.1 (⟨[],
      [(1, ⟨1, 7, 3000, 0, false, true, 1000, none, 0⟩)], 0, 1⟩ : BState)
      7 1 400 0 1000 ⟨1, 7, 3000, 0, false, true, 1000, none, 0⟩
      rfl rfl (by norm_num)
  · exact bill_error_code_reuse.2.2.1 (⟨[], [], 0, 0⟩ : BState) 7 9 4000 0
      1000 rfl
  · exact bill_error_code_reuse.2.2.2 (⟨[], [], 0, 0⟩ : BState) 7 9 rfl

/-- C8: across every sequence of contract operations, a stored schedule
is never deleted, its `missedCount` never decreases, and once its
`active` flag is `false` it never becomes `true` again — neither
modification nor any later sweep reactivates it; both variants, under
the store well-formedness every reachable state satisfies (distinct
schedule keys, all bounded by the schedule id counter). -/
theorem schedule_monotone :
    (∀ (ops : List (BillOp × Nat)) (σ : BState), schedInvB σ →
      ∀ sid s, mget σ.schedules sid = some s →
        ∃ s', mget (runBillOps ops σ).schedules sid = some s'
          ∧ s.missed_count ≤ s'.missed_count
          ∧ (s.active = false → s'.active = false))
    ∧ (∀ (ops : List (InsOp × Nat)) (σ : IState), schedInvI σ →
      ∀ sid s, mget σ.schedules sid = some s →
        ∃ s', mget (runInsOps ops σ).schedules sid = some s'
          ∧ s.missed_count ≤ s'.missed_count
          ∧ (s.active = false → s'.active = false)) := by
  constructor
  · intro ops σ h sid s hs
    exact (runBillOps_sched_evol ops σ h).2 sid s hs
  · intro ops σ h sid s hs
    exact (runInsOps_sched_evol ops σ h).2 sid s hs

/-- C8 witness: an inactive schedule stays present and inactive with a
non-decreasing missed counter across a modification followed by a
sweep, in both variants. -/
theorem schedule_monotone_witness :
    (∃ s', mget (runBillOps
        [(.modifySchedule 7 1 5000 60, 10), (.sweep, 99999)]
        (⟨[], [(1, ⟨1, 7, 3000, 86400, true, false, 1000, none, 2⟩)], 0,
          1⟩ : BState)).schedules 1 = some s'
      ∧ 2 ≤ s'.missed_count ∧ (false = false → s'.active = false))
    ∧ (∃ s', mget (runInsOps
        [(.modifyPremiumSchedule 7 1 5000 60, 10), (.sweep, 99999)]
        (⟨[], [(1, ⟨1, 7, 9, 3000, 86400, true, false, 1000, none, 2⟩)],
          0, 1⟩ : IState)).schedules 1 = some s'
      ∧ 2 ≤ s'.missed_count ∧ (false = false → s'.active = false)) := by
  constructor
  · exact schedule_monotone.1
      [(.modifySchedule 7 1 5000 60, 10), (.sweep, 99999)]
      (⟨[], [(1, ⟨1, 7, 3000, 86400, true, false, 1000, none, 2⟩)], 0, 1⟩ :
        BState) (by constructor <;> decide) 1
      ⟨1, 7, 3000, 86400, true, false, 1000, none, 2⟩ rfl
  · exact schedule_monotone.2
      [(.modifyPremiumSchedule 7 1 5000 60, 10), (.sweep, 99999)]
      (⟨[], [(1, ⟨1, 7, 9, 3000, 86400, true, false, 1000, none, 2⟩)], 0,
        1⟩ : IState) (by constructor <;> decide) 1
      ⟨1, 7, 9, 3000, 86400, true, false, 1000, none, 2⟩ rfl
end Remitwise
